import Mathlib

/-!
# Journalite task scheduling engine — Lean embedding

A shallow embedding of the task scheduling and categorization engine of the
Journalite Obsidian plugin, translated from `src/utils/datePatterns.ts`, the
date utilities, and `src/services/TaskService.ts` (the version using
`TaskNote`/`TaskItem`/`DailyNote`).  JavaScript strings are Lean `String`s
(compared by their character lists, which matches JS ordering on the ASCII
data involved), JS `number` values appearing here are modelled as `Int`
(all values that arise are integral), `string | null` fields are
`Option String`, and the JS `Date` object is modelled at calendar-day
granularity by a (year, 0-based month, day) triple together with the
normalization performed by the `Date` constructor.
-/

/-- JS whitespace (`\s` for the ASCII range, also the class stripped by
`String.prototype.trim`): space, TAB, LF, VT, FF, CR. -/
def isWs (c : Char) : Bool :=
  c.toNat == 32 || c.toNat == 9 || c.toNat == 10 || c.toNat == 11 ||
    c.toNat == 12 || c.toNat == 13

/-- Decimal digit test (`\d`): `'0'` (48) through `'9'` (57). -/
def isDigit (c : Char) : Bool := 48 ≤ c.toNat && c.toNat ≤ 57

/-- Models `String.prototype.trim`: strip leading and trailing whitespace. -/
def jsTrim (s : String) : String :=
  ⟨((s.data.dropWhile isWs).reverse.dropWhile isWs).reverse⟩

/-- JS emptiness test on a string (`"" ` is the only empty string); stated on
the character data so that proofs can case on it directly. -/
def strEmpty (s : String) : Bool := s.data.isEmpty

/-- Lexicographic order on character lists by code point, written as a
structurally recursive Boolean so that it evaluates inside the kernel.
Models the JS `<` comparison of strings (code-unit order; all data handled
here is ASCII, where code units and code points agree). -/
def lexLtb : List Char → List Char → Bool
  | [], [] => false
  | [], _ :: _ => true
  | _ :: _, [] => false
  | a :: as, b :: bs =>
    if a.toNat < b.toNat then true
    else if b.toNat < a.toNat then false
    else lexLtb as bs

/-- JS `a < b` on strings. -/
def strLtb (a b : String) : Bool := lexLtb a.data b.data

/-- JS `a <= b` on strings (`¬ b < a`). -/
def strLeb (a b : String) : Bool := !strLtb b a

/-- Exact `\d{4}-\d{2}-\d{2}` shape on a whole character list. -/
def isDateTokenChars : List Char → Bool
  | [a, b, c, d, s1, e, f, s2, g, h] =>
    isDigit a && isDigit b && isDigit c && isDigit d && s1 == '-' &&
      isDigit e && isDigit f && s2 == '-' && isDigit g && isDigit h
  | _ => false

/-- Match the ten characters of a `\d{4}-\d{2}-\d{2}` token at the head of a
*reversed* character list; returns the token in forward order together with
the rest (still reversed).  Used to model the `$`-anchored date regexes. -/
def matchDateRev : List Char → Option (List Char × List Char)
  | h :: g :: s2 :: f :: e :: s1 :: d :: c :: b :: a :: rest =>
    if isDigit h && isDigit g && s2 == '-' && isDigit f && isDigit e && s1 == '-' &&
        isDigit d && isDigit c && isDigit b && isDigit a then
      some ([a, b, c, d, s1, e, f, s2, g, h], rest)
    else none
  | _ => none

/-- The `Schedulable` interface: start/due dates as `YYYY-MM-DD` strings or null. -/
structure Schedulable where
  startDate : Option String
  dueDate : Option String
deriving Repr, DecidableEq

/-- Return type of `extractDatesFromText` (`{ text } & Schedulable`). -/
structure ExtractResult where
  text : String
  startDate : Option String
  dueDate : Option String
deriving Repr, DecidableEq

/-- View an extraction result as a `Schedulable`. -/
def ExtractResult.sched (r : ExtractResult) : Schedulable := ⟨r.startDate, r.dueDate⟩

/-- The residual text of a matched annotation: in source
`text.slice(0, match.index).trim()`, where `match.index` is the start of the
whitespace run preceding the `@`; `rest` holds the pre-`@` characters in
reversed order, and trimming makes the exact split point within that
whitespace run irrelevant. -/
def remainderText (rest : List Char) : String := jsTrim ⟨rest.reverse⟩

/-- `text.match(/\s*@(DATE)\.\.(DATE)\s*$/)` — range form. -/
def matchRange (text : String) : Option ExtractResult := do
  let r := text.data.reverse.dropWhile isWs
  let (due, r1) ← matchDateRev r
  match r1 with
  | c1 :: c2 :: r2 =>
    if c1 == '.' && c2 == '.' then do
      let (start, r3) ← matchDateRev r2
      match r3 with
      | c3 :: rest =>
        if c3 == '@' then some ⟨remainderText rest, some ⟨start⟩, some ⟨due⟩⟩ else none
      | _ => none
    else none
  | _ => none

/-- `text.match(/\s*@(DATE)\.\.\s*$/)` — open-ended start form. -/
def matchStartOnly (text : String) : Option ExtractResult := do
  let r := text.data.reverse.dropWhile isWs
  match r with
  | c1 :: c2 :: r1 =>
    if c1 == '.' && c2 == '.' then do
      let (start, r2) ← matchDateRev r1
      match r2 with
      | c3 :: rest =>
        if c3 == '@' then some ⟨remainderText rest, some ⟨start⟩, none⟩ else none
      | _ => none
    else none
  | _ => none

/-- `text.match(/\s*@\.\.(DATE)\s*$/)` — open-ended due form. -/
def matchDueOnly (text : String) : Option ExtractResult := do
  let r := text.data.reverse.dropWhile isWs
  let (due, r1) ← matchDateRev r
  match r1 with
  | c1 :: c2 :: c3 :: rest =>
    if c1 == '.' && c2 == '.' && c3 == '@' then some ⟨remainderText rest, none, some ⟨due⟩⟩
    else none
  | _ => none

/-- `text.match(/\s*@(DATE)\s*$/)` — single-date form (both fields get the date). -/
def matchSimple (text : String) : Option ExtractResult := do
  let r := text.data.reverse.dropWhile isWs
  let (date, r1) ← matchDateRev r
  match r1 with
  | c1 :: rest =>
    if c1 == '@' then some ⟨remainderText rest, some ⟨date⟩, some ⟨date⟩⟩ else none
  | _ => none

/-- Models `extractDatesFromText`: the four trailing-annotation regexes tried
in source order (range, start-only, due-only, single date); if none matches,
the text is returned unchanged with both dates null. -/
def extractDatesFromText (text : String) : ExtractResult :=
  match matchRange text with
  | some res => res
  | none =>
  match matchStartOnly text with
  | some res => res
  | none =>
  match matchDueOnly text with
  | some res => res
  | none =>
  match matchSimple text with
  | some res => res
  | none => ⟨text, none, none⟩

/-- JS truthiness of a `string | null` value: `null` and `""` are falsy. -/
def truthy : Option String → Bool
  | none => false
  | some s => !strEmpty s

/-- Models `isActiveOnDate` from `datePatterns.ts`: JS string comparisons
(`>=`, `<=`) become `≤` on Lean strings (same lexicographic order). -/
def isActiveOnDate (item : Schedulable) (dateStr : String) : Bool :=
  if !truthy item.startDate && !truthy item.dueDate then false
  else if truthy item.startDate && !truthy item.dueDate then
    strLeb (item.startDate.getD "") dateStr
  else if !truthy item.startDate && truthy item.dueDate then
    strLeb dateStr (item.dueDate.getD "")
  else
    strLeb (item.startDate.getD "") dateStr && strLeb dateStr (item.dueDate.getD "")

/-! ## The JS `Date` model -/

/-- Gregorian leap-year rule, as the JS `Date` implementation applies it. -/
def isLeap (y : Int) : Bool := y % 4 == 0 && (y % 100 != 0 || y % 400 == 0)

/-- Number of days in 0-based month `m` of year `y`. -/
def daysInMonth (y : Int) (m : Nat) : Nat :=
  match m with
  | 0 => 31
  | 1 => if isLeap y then 29 else 28
  | 2 => 31
  | 3 => 30
  | 4 => 31
  | 5 => 30
  | 6 => 31
  | 7 => 31
  | 8 => 30
  | 9 => 31
  | 10 => 30
  | _ => 31

/-- A JS `Date` at calendar-day granularity: normalized year, 0-based month
(always `< 12` for dates built by `mkDate`), 1-based day of month. -/
structure JsDate where
  year : Int
  month : Nat
  day : Int
deriving Repr, DecidableEq

/-- Day-of-month normalization: roll an out-of-range day forward or backward
through the months.  Fuel-indexed (any fuel beyond `|day| / 28 + 2` is enough;
callers pass `|day| + 24`). -/
def normDays : Nat → Int → Nat → Int → Int × Nat × Int
  | 0, y, m, d => (y, m, d)
  | fuel + 1, y, m, d =>
    if d < 1 then
      let y' := if m = 0 then y - 1 else y
      let m' := if m = 0 then 11 else m - 1
      normDays fuel y' m' (d + daysInMonth y' m')
    else if (daysInMonth y m : Int) < d then
      let y' := if m = 11 then y + 1 else y
      let m' := if m = 11 then 0 else m + 1
      normDays fuel y' m' (d - daysInMonth y m)
    else (y, m, d)

/-- Models `new Date(year, monthIndex, day)` at day granularity: the legacy
mapping of years 0–99 to 1900–1999, floor-division month normalization, then
day-of-month rollover.  (`Int` `/` and `%` are Euclidean; for the positive
divisor 12 they agree with the floor semantics JS uses.) -/
def mkDate (year month day : Int) : JsDate :=
  let y := if 0 ≤ year ∧ year ≤ 99 then year + 1900 else year
  let ym := y * 12 + month
  let p := normDays (day.natAbs + 24) (ym / 12) (ym % 12).toNat day
  ⟨p.1, p.2.1, p.2.2⟩

/-- `Date.prototype.getFullYear`. -/
def JsDate.getFullYear (d : JsDate) : Int := d.year

/-- `Date.prototype.getMonth` (0-based). -/
def JsDate.getMonth (d : JsDate) : Nat := d.month

/-- `Date.prototype.getDate` (1-based day of month). -/
def JsDate.getDate (d : JsDate) : Int := d.day

/-- Models `addDays`: `result.setDate(result.getDate() + days)` re-normalizes
the day of month without the 0–99 year mapping. -/
def addDays (date : JsDate) (days : Int) : JsDate :=
  let p := normDays ((date.day + days).natAbs + 24) date.year date.month (date.day + days)
  ⟨p.1, p.2.1, p.2.2⟩

/-- Days strictly before year `y` in the proleptic Gregorian calendar
(meaningful for `y ≥ 1`, the only range the theorems use). -/
def daysBeforeYear (y : Int) : Int :=
  365 * (y - 1) + (y - 1) / 4 - (y - 1) / 100 + (y - 1) / 400

/-- Days before 0-based month `m` within year `y`. -/
def daysBeforeMonth (y : Int) (m : Nat) : Nat :=
  let l : Nat := if isLeap y then 1 else 0
  match m with
  | 0 => 0
  | 1 => 31
  | 2 => 59 + l
  | 3 => 90 + l
  | 4 => 120 + l
  | 5 => 151 + l
  | 6 => 181 + l
  | 7 => 212 + l
  | 8 => 243 + l
  | 9 => 273 + l
  | 10 => 304 + l
  | _ => 334 + l

/-- Absolute day index of a date (day 1 of year 1 ↦ 1).  Plays the role of
the JS `Date` timestamp at day granularity: chronological comparison of dates
is comparison of `dayNumber`s. -/
def dayNumber (d : JsDate) : Int := daysBeforeYear d.year + daysBeforeMonth d.year d.month + d.day

/-- Chronological order on dates (the order of JS `Date` timestamps). -/
def jsDateLe (a b : JsDate) : Prop := dayNumber a ≤ dayNumber b

/-- Models `Date.prototype.getDay` (0 = Sunday): `dayNumber` of 1970-01-01,
a Thursday, is 719163 ≡ 4 (mod 7), so `dayNumber % 7` is already aligned. -/
def JsDate.getDay (d : JsDate) : Int := dayNumber d % 7

/-- The characters `'0'`–`'9'` (argument taken mod 10 by the callers). -/
def decimalDigit : Nat → Char
  | 0 => '0'
  | 1 => '1'
  | 2 => '2'
  | 3 => '3'
  | 4 => '4'
  | 5 => '5'
  | 6 => '6'
  | 7 => '7'
  | 8 => '8'
  | _ => '9'

/-- Fuel-indexed decimal digit expansion (`fuel > n` suffices, see `natDigits`). -/
def natDigitsAux : Nat → Nat → List Char
  | 0, _ => []
  | fuel + 1, n =>
    if n < 10 then [decimalDigit n]
    else natDigitsAux fuel (n / 10) ++ [decimalDigit (n % 10)]

/-- Decimal digits of a natural number; models JS number-to-string for
nonnegative integers. -/
def natDigits (n : Nat) : List Char := natDigitsAux (n + 1) n

/-- Models JS template-literal stringification of an integral number. -/
def jsIntToString (n : Int) : String :=
  if n < 0 then ⟨'-' :: natDigits n.natAbs⟩ else ⟨natDigits n.toNat⟩

/-- Models `String(x).padStart(2, "0")`. -/
def padStart2 (s : String) : String :=
  if s.length < 2 then ⟨List.replicate (2 - s.length) '0' ++ s.data⟩ else s

/-- Models `formatDate`: `` `${year}-${month(2)}-${day(2)}` `` with the month
1-based and month/day zero-padded to width 2 (the year is not padded). -/
def formatDate (date : JsDate) : String :=
  jsIntToString date.getFullYear ++ "-" ++
    padStart2 (jsIntToString ((date.getMonth : Int) + 1)) ++ "-" ++
    padStart2 (jsIntToString date.getDate)

/-- Helper for `splitOnChar` (current field, remaining fields). -/
def splitOnCharAux (sep : Char) : List Char → List Char × List (List Char)
  | [] => ([], [])
  | c :: cs =>
    let p := splitOnCharAux sep cs
    if c == sep then ([], p.1 :: p.2) else (c :: p.1, p.2)

/-- Models `String.prototype.split` with a one-character separator. -/
def splitOnChar (sep : Char) (l : List Char) : List (List Char) :=
  let p := splitOnCharAux sep l
  p.1 :: p.2

/-- Value of a list of decimal digit characters. -/
def digitsToNat (l : List Char) : Nat := l.foldl (fun a c => 10 * a + (c.toNat - 48)) 0

/-- Models JS `Number(string)` on integral decimal strings: surrounding
whitespace is ignored, blank is 0, an optionally signed digit run converts,
anything else is NaN (`none`).  Fractional, hex and exponent forms do not
arise in this code base and are outside the model. -/
def jsNumber (s : String) : Option Int :=
  match (jsTrim s).data with
  | [] => some 0
  | c :: ds =>
    if c == '-' then
      if !ds.isEmpty && ds.all isDigit then some (-(digitsToNat ds : Int)) else none
    else if c == '+' then
      if !ds.isEmpty && ds.all isDigit then some ((digitsToNat ds : Int)) else none
    else if (c :: ds).all isDigit then some ((digitsToNat (c :: ds) : Int)) else none

/-- `Number` applied to field `i` of a destructured split result; a missing
field is `undefined` and `Number(undefined)` is NaN. -/
def jsNumberAt (parts : List (List Char)) (i : Nat) : Option Int :=
  match parts.get? i with
  | some cs => jsNumber ⟨cs⟩
  | none => none

/-- Models `parseDate`: split on `-`, convert the first three fields with
`Number`, and build `new Date(year, month - 1, day)`; a NaN component yields
an Invalid Date (`none`).  No shape validation is performed. -/
def parseDate (dateStr : String) : Option JsDate :=
  let parts := splitOnChar '-' dateStr.data
  match jsNumberAt parts 0, jsNumberAt parts 1, jsNumberAt parts 2 with
  | some y, some m, some d => some (mkDate y (m - 1) d)
  | _, _, _ => none

/-! ## Calendar grid -/

/-- `getFirstDayOfMonth`: `new Date(year, month, 1)`. -/
def getFirstDayOfMonth (year month : Int) : JsDate := mkDate year month 1

/-- `getLastDayOfMonth`: `new Date(year, month + 1, 0)`. -/
def getLastDayOfMonth (year month : Int) : JsDate := mkDate year (month + 1) 0

/-- One iteration of the day loop of `getCalendarDays`: push the date onto the
current week and flush the week once it holds 7 cells. -/
def calPush (year month : Int) (st : List (List (Option JsDate)) × List (Option JsDate))
    (day : Int) : List (List (Option JsDate)) × List (Option JsDate) :=
  let week := st.2 ++ [some (mkDate year month day)]
  if week.length = 7 then (st.1 ++ [week], []) else (st.1, week)

/-- Models `getCalendarDays`: leading `null`s up to the first day's weekday,
one cell per day of the month, weeks flushed at 7 cells, and a final partial
week padded with `null`s to length 7. -/
def getCalendarDays (year month : Int) : List (List (Option JsDate)) :=
  let firstDay := getFirstDayOfMonth year month
  let lastDay := getLastDayOfMonth year month
  let lead : List (Option JsDate) := List.replicate (firstDay.getDay).toNat none
  let st := (List.range lastDay.getDate.toNat).foldl
    (fun st i => calPush year month st (Int.ofNat i + 1)) ([], lead)
  if 0 < st.2.length then st.1 ++ [st.2 ++ List.replicate (7 - st.2.length) none] else st.1

/-! ## TaskService data model -/

/-- A task note (note with `done` in frontmatter); the file reference is
represented by its base name. -/
structure TaskNote where
  name : String
  startDate : Option String
  dueDate : Option String
  done : Bool
deriving Repr, DecidableEq

/-- View a task note as a `Schedulable`. -/
def TaskNote.sched (n : TaskNote) : Schedulable := ⟨n.startDate, n.dueDate⟩

/-- An inline task item (checkbox line with a trailing date annotation). -/
structure TaskItem where
  text : String
  line : Nat
  startDate : Option String
  dueDate : Option String
  breadcrumbs : List String
deriving Repr, DecidableEq

/-- View a task item as a `Schedulable`. -/
def TaskItem.sched (i : TaskItem) : Schedulable := ⟨i.startDate, i.dueDate⟩

/-- A daily note (note named `YYYY-MM-DD.md`) with its inline task items. -/
structure DailyNote where
  date : String
  taskItems : List TaskItem
deriving Repr, DecidableEq

/-- One per-date bucket of the categorized result. -/
structure CategoryData where
  taskItems : List TaskItem
  taskNotes : List TaskNote
deriving Repr, DecidableEq

/-- The categorized result; the two `Map`s are association lists in ascending
key order, as produced by inserting into a fresh `Map` from a sorted array. -/
structure TasksByCategory where
  overdue : List (String × CategoryData)
  today : CategoryData
  upcoming : List (String × CategoryData)
  noSchedule : List TaskNote
deriving Repr, DecidableEq

/-- Models `isTaskNoteActiveOnDate`. -/
def isTaskNoteActiveOnDate (note : TaskNote) (dateStr : String) : Bool :=
  if note.done then false else isActiveOnDate note.sched dateStr

/-- Models `shouldShowTaskNoteOnDate`: a boundary (start or due) must equal
the date exactly; completed notes never show. -/
def shouldShowTaskNoteOnDate (note : TaskNote) (dateStr : String) : Bool :=
  if note.done then false
  else if !truthy note.startDate && !truthy note.dueDate then false
  else if truthy note.dueDate && dateStr == note.dueDate.getD "" then true
  else if truthy note.startDate && dateStr == note.startDate.getD "" then true
  else false

/-- Models `getTasksForDate`: the daily note's items for that date (if any),
then every task item whose start or due date equals the date, and every task
note passing `shouldShowTaskNoteOnDate`. -/
def getTasksForDate (dateStr : String) (allDailyNotes : List DailyNote)
    (allTaskNotes : List TaskNote) (allTaskItems : List TaskItem) : CategoryData :=
  let dailyNote := allDailyNotes.find? (fun n => n.date == dateStr)
  let dailyItems := match dailyNote with
    | some n => n.taskItems
    | none => []
  let taskNotes := allTaskNotes.filter (fun n => shouldShowTaskNoteOnDate n dateStr)
  let taskItems := dailyItems ++
    allTaskItems.filter (fun i => i.dueDate == some dateStr || i.startDate == some dateStr)
  ⟨taskItems, taskNotes⟩

/-- JS `Set.prototype.add` on an insertion-ordered string set. -/
def addDate (l : List String) (d : String) : List String :=
  if d ∈ l then l else l ++ [d]

/-- The `overdueDates` set of `getTasksByCategory`: dates of daily notes
before today that have items, and due dates (only) of incomplete task notes
and of task items that are before today.  Each loop guard is written as one
Boolean condition (`continue` on `done` is folded into the guard). -/
def overdueDatesOf (todayStr : String) (allDailyNotes : List DailyNote)
    (allTaskNotes : List TaskNote) (allTaskItems : List TaskItem) : List String :=
  let s : List String := []
  -- if (note.date < todayStr && note.taskItems.length > 0) overdueDates.add(note.date)
  let s := allDailyNotes.foldl
    (fun s note =>
      if strLtb note.date todayStr && !note.taskItems.isEmpty then addDate s note.date
      else s) s
  -- if (note.done) continue; if (note.dueDate && note.dueDate < todayStr) add(note.dueDate)
  let s := allTaskNotes.foldl
    (fun s note =>
      if !note.done && truthy note.dueDate && strLtb (note.dueDate.getD "") todayStr then
        addDate s (note.dueDate.getD "")
      else s) s
  -- if (item.dueDate && item.dueDate < todayStr) add(item.dueDate)
  let s := allTaskItems.foldl
    (fun s item =>
      if truthy item.dueDate && strLtb (item.dueDate.getD "") todayStr then
        addDate s (item.dueDate.getD "")
      else s) s
  s

/-- The `upcomingDates` set of `getTasksByCategory`: dates of daily notes in
`(todayStr, weekLater]` that have items, and due/start dates of incomplete
task notes and of task items in that open-closed range (due tested first,
then start, as in source). -/
def upcomingDatesOf (todayStr weekLater : String) (allDailyNotes : List DailyNote)
    (allTaskNotes : List TaskNote) (allTaskItems : List TaskItem) : List String :=
  let s : List String := []
  -- if (note.date > todayStr && note.date <= weekLater && note.taskItems.length > 0) add
  let s := allDailyNotes.foldl
    (fun s note =>
      if strLtb todayStr note.date && strLeb note.date weekLater && !note.taskItems.isEmpty then
        addDate s note.date
      else s) s
  -- if (note.done) continue; then the dueDate guard, then the startDate guard
  let s := allTaskNotes.foldl
    (fun s note =>
      let s1 :=
        if !note.done && truthy note.dueDate && strLtb todayStr (note.dueDate.getD "") &&
            strLeb (note.dueDate.getD "") weekLater then
          addDate s (note.dueDate.getD "")
        else s
      if !note.done && truthy note.startDate && strLtb todayStr (note.startDate.getD "") &&
          strLeb (note.startDate.getD "") weekLater then
        addDate s1 (note.startDate.getD "")
      else s1) s
  -- the item dueDate guard, then the item startDate guard
  let s := allTaskItems.foldl
    (fun s item =>
      let s1 :=
        if truthy item.dueDate && strLtb todayStr (item.dueDate.getD "") &&
            strLeb (item.dueDate.getD "") weekLater then
          addDate s (item.dueDate.getD "")
        else s
      if truthy item.startDate && strLtb todayStr (item.startDate.getD "") &&
          strLeb (item.startDate.getD "") weekLater then
        addDate s1 (item.startDate.getD "")
      else s1) s
  s

/-- `Array.from(set).sort()`: ascending lexicographic order. -/
def sortDates (l : List String) : List String :=
  List.insertionSort (fun a b : String => strLeb a b = true) l

/-- Build one of the two date-keyed `Map`s: iterate the sorted dates and keep
the dates whose bucket is nonempty. -/
def buildDateMap (dates : List String) (allDailyNotes : List DailyNote)
    (allTaskNotes : List TaskNote) (allTaskItems : List TaskItem) :
    List (String × CategoryData) :=
  (sortDates dates).filterMap (fun dateStr =>
    let data := getTasksForDate dateStr allDailyNotes allTaskNotes allTaskItems
    if !data.taskItems.isEmpty || !data.taskNotes.isEmpty then some (dateStr, data) else none)

/-- Models `getTasksByCategory`, with the clock (`new Date()`) and the corpus
snapshot (`getAllTaskNotes`, `getAllDailyNotes`, `getAllTaskItems`) passed as
parameters. -/
def getTasksByCategory (today : JsDate) (allTaskNotes : List TaskNote)
    (allDailyNotes : List DailyNote) (allTaskItems : List TaskItem) : TasksByCategory :=
  let todayStr := formatDate today
  let weekLater := formatDate (addDays today 14)
  let overdueDates := overdueDatesOf todayStr allDailyNotes allTaskNotes allTaskItems
  let upcomingDates := upcomingDatesOf todayStr weekLater allDailyNotes allTaskNotes allTaskItems
  let overdue := buildDateMap overdueDates allDailyNotes allTaskNotes allTaskItems
  let todayItems := match allDailyNotes.find? (fun n => n.date == todayStr) with
    | some n => n.taskItems
    | none => []
  let todayData : CategoryData :=
    ⟨todayItems ++ allTaskItems.filter (fun i => isActiveOnDate i.sched todayStr),
      allTaskNotes.filter (fun n => isTaskNoteActiveOnDate n todayStr)⟩
  let upcoming := buildDateMap upcomingDates allDailyNotes allTaskNotes allTaskItems
  let noSchedule := allTaskNotes.filter
    (fun n => !n.done && !truthy n.startDate && !truthy n.dueDate)
  ⟨overdue, todayData, upcoming, noSchedule⟩

/-! ## Frontmatter date normalization -/

/-- A frontmatter field value as `normalizeDate` can receive it: `null`,
`undefined`, a boolean, an (integral) number, a string, or an object whose
`year`/`month`/`day` properties are numbers when `some` and absent or
non-numeric when `none`. -/
inductive FmValue where
  | vNull
  | vUndef
  | vBool (b : Bool)
  | vNum (n : Int)
  | vStr (s : String)
  | vObj (year month day : Option Int)
deriving Repr, DecidableEq

/-- JS falsiness of an `FmValue` (`!value`). -/
def FmValue.falsy : FmValue → Bool
  | .vNull => true
  | .vUndef => true
  | .vBool b => !b
  | .vNum n => n == 0
  | .vStr s => strEmpty s
  | .vObj _ _ _ => false

/-- `value.match(/^(\d{4}-\d{2}-\d{2})/)`: the first ten characters when they
have the date-token shape. -/
def matchLeadingDate : List Char → Option (List Char)
  | a :: b :: c :: d :: s1 :: e :: f :: s2 :: g :: h :: _ =>
    if isDateTokenChars [a, b, c, d, s1, e, f, s2, g, h] then
      some [a, b, c, d, s1, e, f, s2, g, h]
    else none
  | _ => none

/-- Models `normalizeDate` from `TaskService.ts`. -/
def normalizeDate (value : FmValue) : Option String :=
  if value.falsy then none
  else
    match value with
    | .vStr s =>
      match matchLeadingDate s.data with
      | some tok => some ⟨tok⟩
      | none => none
    | .vObj (some y) (some m) (some d) =>
      some (jsIntToString y ++ "-" ++ padStart2 (jsIntToString m) ++ "-" ++
        padStart2 (jsIntToString d))
    | _ => none

/-! ## Markdown stripping and breadcrumbs -/

/-- Strip a literal character sequence from the head of a list. -/
def stripChars : List Char → List Char → Option (List Char)
  | [], l => some l
  | p :: ps, c :: cs => if c == p then stripChars ps cs else none
  | _ :: _, [] => none

/-- A nonempty maximal run of characters satisfying `p` (one-or-more
quantifier on a character class). -/
def takeRun (p : Char → Bool) (l : List Char) : Option (List Char × List Char) :=
  let body := l.takeWhile p
  if body.isEmpty then none else some (body, l.drop body.length)

/-- `od BODY cd → BODY` where `BODY` is one-or-more characters outside
`bad` (the one-character-class wrapped decorations of `stripMarkdown`). -/
def matchWrapped (od cd : List Char) (bad : Char → Bool) (l : List Char) :
    Option (List Char × List Char) := do
  let r ← stripChars od l
  let (body, r2) ← takeRun (fun c => !bad c) r
  let r3 ← stripChars cd r2
  some (body, r3)

/-- `/\[\[([^\]|]+)\|([^\]]+)\]\]/g` replaced by `$2` (wikilink with alias). -/
def matchWikiAlias (l : List Char) : Option (List Char × List Char) := do
  let r ← stripChars ['[', '['] l
  let (_target, r2) ← takeRun (fun c => !(c == ']' || c == '|')) r
  let r3 ← stripChars ['|'] r2
  let (disp, r4) ← takeRun (fun c => !(c == ']')) r3
  let r5 ← stripChars [']', ']'] r4
  some (disp, r5)

/-- `/\[\[([^\]]+)\]\]/g` replaced by `$1` (plain wikilink). -/
def matchWikiPlain (l : List Char) : Option (List Char × List Char) :=
  matchWrapped ['[', '['] [']', ']'] (fun c => c == ']') l

/-- `/\[([^\]]+)\]\([^)]+\)/g` replaced by `$1` (markdown link). -/
def matchMdLink (l : List Char) : Option (List Char × List Char) := do
  let r ← stripChars ['['] l
  let (label, r2) ← takeRun (fun c => !(c == ']')) r
  let r3 ← stripChars [']', '('] r2
  let (_url, r4) ← takeRun (fun c => !(c == ')')) r3
  let r5 ← stripChars [')'] r4
  some (label, r5)

/-- `/#(\S+)/g` replaced by `$1` (tag prefix removal). -/
def matchTag (l : List Char) : Option (List Char × List Char) := do
  let r ← stripChars ['#'] l
  let (body, r2) ← takeRun (fun c => !isWs c) r
  some (body, r2)

/-- One global-replace pass: scan left to right, replacing each (leftmost,
non-overlapping) match and continuing after it.  Fuel-indexed; every matcher
consumes at least one character, so fuel `l.length` is always sufficient. -/
def scanReplace (m : List Char → Option (List Char × List Char)) : Nat → List Char → List Char
  | 0, l => l
  | _ + 1, [] => []
  | fuel + 1, c :: cs =>
    match m (c :: cs) with
    | some (rep, rest) => rep ++ scanReplace m fuel rest
    | none => c :: scanReplace m fuel cs

/-- Run one global-replace pass over a character list. -/
def runPass (m : List Char → Option (List Char × List Char)) (l : List Char) : List Char :=
  scanReplace m l.length l

/-- The backquote character (inline-code delimiter). -/
def backquote : Char := Char.ofNat 96

/-- Models `stripMarkdown`: the eleven chained global regex replacements, in
source order. -/
def stripMarkdown (text : String) : String :=
  let l := text.data
  let l := runPass matchWikiAlias l
  let l := runPass matchWikiPlain l
  let l := runPass matchMdLink l
  let l := runPass (matchWrapped ['*', '*'] ['*', '*'] (fun c => c == '*')) l
  let l := runPass (matchWrapped ['_', '_'] ['_', '_'] (fun c => c == '_')) l
  let l := runPass (matchWrapped ['*'] ['*'] (fun c => c == '*')) l
  let l := runPass (matchWrapped ['_'] ['_'] (fun c => c == '_')) l
  let l := runPass (matchWrapped ['~', '~'] ['~', '~'] (fun c => c == '~')) l
  let l := runPass (matchWrapped ['=', '='] ['=', '='] (fun c => c == '=')) l
  let l := runPass (matchWrapped [backquote] [backquote] (fun c => c == backquote)) l
  let l := runPass matchTag l
  ⟨l⟩

/-- Models `replace(/^[\s]*-\s*(\[.\]\s*)?/, "")`: strip a leading list
bullet and an optional checkbox.  The `.` of `\[.\]` matches any character
(lines contain no newline). -/
def stripListBullet (s : String) : String :=
  match s.data.dropWhile isWs with
  | '-' :: rest =>
    match rest.dropWhile isWs with
    | '[' :: c :: rest2 =>
      match rest2 with
      | ']' :: rest3 => ⟨rest3.dropWhile isWs⟩
      | _ => ⟨('[' :: c :: rest2 : List Char)⟩
    | other => ⟨other⟩
  | _ => s

/-- The ancestor-text normalization pipeline of `buildBreadcrumbs`: strip the
bullet/checkbox prefix, trim, remove a trailing date annotation, strip
markdown. -/
def normalizeLineText (s : String) : String :=
  stripMarkdown (extractDatesFromText (jsTrim (stripListBullet s))).text

/-- The `parent` link of a cached list item (`item.parent` is the line number
of the parent list item, negative for a top-level item). -/
structure MListItem where
  parent : Int
deriving Repr, DecidableEq

/-- `lines[i] || ""`: out-of-range access gives `undefined`, hence `""`
(and an empty line is falsy, giving `""` as well). -/
def lineAt (lines : List String) (i : Int) : String :=
  if 0 ≤ i then (lines.getD i.toNat "") else ""

/-- Models the `while` loop of `buildBreadcrumbs`; `acc` is the breadcrumbs
array (`unshift` prepends).  Fuel-indexed: the loop in source relies on
parent lines strictly decreasing. -/
def buildBreadcrumbsAux (lookup : Int → Option MListItem) (lines : List String) :
    Nat → Int → List String → List String
  | 0, _, acc => acc
  | fuel + 1, parentLine, acc =>
    if 0 ≤ parentLine then
      match lookup parentLine with
      | none => acc
      | some parentItem =>
        let text := normalizeLineText (lineAt lines parentLine)
        let acc := if !strEmpty text then text :: acc else acc
        buildBreadcrumbsAux lookup lines fuel parentItem.parent acc
    else acc

/-- Models `buildBreadcrumbs` for an item with parent link `item.parent`;
`fuel` bounds the loop (any value at least the ancestor-chain length works,
e.g. `lines.length + 1` for well-formed caches). -/
def buildBreadcrumbs (fuel : Nat) (item : MListItem) (lookup : Int → Option MListItem)
    (lines : List String) : List String :=
  buildBreadcrumbsAux lookup lines fuel item.parent []

/-- The lines visited by the `buildBreadcrumbs` loop, outermost ancestor
first (the loop itself visits innermost first and `unshift`s). -/
def ancestorLines (lookup : Int → Option MListItem) : Nat → Int → List Int
  | 0, _ => []
  | fuel + 1, parentLine =>
    if 0 ≤ parentLine then
      match lookup parentLine with
      | none => []
      | some parentItem => ancestorLines lookup fuel parentItem.parent ++ [parentLine]
    else []

/-- Valid in-range calendar dates with four-digit years; the canonical
`YYYY-MM-DD` tokens are exactly `formatDate` of these. -/
def ValidDate (t : JsDate) : Prop :=
  1000 ≤ t.year ∧ t.year ≤ 9999 ∧ t.month < 12 ∧ 1 ≤ t.day ∧ t.day ≤ (daysInMonth t.year t.month : Int)

/-! ## Theorems -/

/-! ## General helper lemmas -/

theorem strEmpty_false_of_ne {s : String} (h : s ≠ "") : strEmpty s = false := by
  obtain ⟨l⟩ := s
  cases l with
  | nil => exact absurd rfl h
  | cons a l => rfl

theorem truthy_some_of_ne {s : String} (h : s ≠ "") : truthy (some s) = true := by
  simp [truthy, strEmpty_false_of_ne h]

theorem string_lt_iff {s t : String} : s < t ↔ s.data < t.data := by
  rw [String.lt_iff_toList_lt]; rfl

theorem string_le_iff {s t : String} : s ≤ t ↔ ¬ t.data < s.data := by
  rw [← string_lt_iff]; exact not_lt.symm

theorem charLt_iff {a b : Char} : a < b ↔ a.toNat < b.toNat := Iff.rfl

theorem char_eq_of_toNat_eq {a b : Char} (h : a.toNat = b.toNat) : a = b :=
  Char.ext (UInt32.ext h)

theorem cons_lt_cons_iff {a b : Char} {l1 l2 : List Char} :
    (a :: l1) < (b :: l2) ↔ a < b ∨ (a = b ∧ l1 < l2) := by
  constructor
  · intro h
    cases h with
    | cons h => exact Or.inr ⟨rfl, h⟩
    | rel h => exact Or.inl h
  · intro h
    rcases h with h | ⟨rfl, h⟩
    · exact List.Lex.rel h
    · exact List.Lex.cons h

theorem lexLtb_iff {l1 l2 : List Char} : lexLtb l1 l2 = true ↔ l1 < l2 := by
  induction l1 generalizing l2 with
  | nil =>
    cases l2 with
    | nil =>
      simp only [lexLtb, Bool.false_eq_true, false_iff]
      exact List.Lex.not_nil_right _ _
    | cons b bs =>
      simp only [lexLtb, true_iff]
      exact List.nil_lt_cons b bs
  | cons a as ih =>
    cases l2 with
    | nil =>
      simp only [lexLtb, Bool.false_eq_true, false_iff]
      exact List.Lex.not_nil_right _ _
    | cons b bs =>
      rw [cons_lt_cons_iff]
      simp only [lexLtb]
      by_cases h1 : a.toNat < b.toNat
      · rw [if_pos h1]
        simp only [true_iff]
        exact Or.inl (charLt_iff.mpr h1)
      · by_cases h2 : b.toNat < a.toNat
        · rw [if_neg h1, if_pos h2]
          simp only [Bool.false_eq_true, false_iff]
          rintro (h | ⟨rfl, -⟩)
          · exact h1 (charLt_iff.mp h)
          · exact lt_irrefl _ h2
        · have hab : a = b := char_eq_of_toNat_eq (le_antisymm (not_lt.mp h2) (not_lt.mp h1))
          subst hab
          rw [if_neg h1, if_neg h2, ih]
          constructor
          · intro h; exact Or.inr ⟨rfl, h⟩
          · rintro (h | ⟨-, h⟩)
            · exact absurd h (lt_irrefl a)
            · exact h

theorem strLtb_iff {a b : String} : strLtb a b = true ↔ a < b := by
  rw [strLtb, lexLtb_iff, string_lt_iff]

theorem strLeb_iff {a b : String} : strLeb a b = true ↔ a ≤ b := by
  rw [strLeb, Bool.not_eq_true', ← Bool.not_eq_true, strLtb_iff]
  exact not_lt

/-! ## C4: the schedule-window activity classifier -/

/-- **C4**: `isActiveOnDate` returns false when both dates are absent; with
only a start date present it is `startDate ≤ d`; with only a due date
present it is `d ≤ dueDate`; with both present it is
`startDate ≤ d ∧ d ≤ dueDate` — string comparisons on the tokens. -/
theorem isActiveOnDate_spec (item : Schedulable) (d : String)
    (hs : item.startDate ≠ some "") (hd : item.dueDate ≠ some "") :
    (item.startDate = none ∧ item.dueDate = none → isActiveOnDate item d = false) ∧
    (∀ s, item.startDate = some s → item.dueDate = none →
      (isActiveOnDate item d = true ↔ s ≤ d)) ∧
    (∀ t, item.startDate = none → item.dueDate = some t →
      (isActiveOnDate item d = true ↔ d ≤ t)) ∧
    (∀ s t, item.startDate = some s → item.dueDate = some t →
      (isActiveOnDate item d = true ↔ s ≤ d ∧ d ≤ t)) := by
  refine ⟨?_, ?_, ?_, ?_⟩
  · rintro ⟨h1, h2⟩
    simp [isActiveOnDate, h1, h2, truthy]
  · intro s h1 h2
    have hne : s ≠ "" := fun he => hs (by rw [h1, he])
    simp [isActiveOnDate, h1, h2, truthy, strEmpty_false_of_ne hne, strLeb_iff]
  · intro t h1 h2
    have hne : t ≠ "" := fun he => hd (by rw [h2, he])
    simp [isActiveOnDate, h1, h2, truthy, strEmpty_false_of_ne hne, strLeb_iff]
  · intro s t h1 h2
    have hnes : s ≠ "" := fun he => hs (by rw [h1, he])
    have hnet : t ≠ "" := fun he => hd (by rw [h2, he])
    simp [isActiveOnDate, h1, h2, truthy, strEmpty_false_of_ne hnes,
      strEmpty_false_of_ne hnet, strLeb_iff]

/-- **C4 witness**: the spec's example window `2025-01-01..2025-01-31` is
active on `2025-01-15`. -/
theorem isActiveOnDate_spec_witness :
    isActiveOnDate ⟨some "2025-01-01", some "2025-01-31"⟩ "2025-01-15" = true :=
  ((isActiveOnDate_spec ⟨some "2025-01-01", some "2025-01-31"⟩ "2025-01-15"
      (by decide) (by decide)).2.2.2 "2025-01-01" "2025-01-31" rfl rfl).mpr
    ⟨strLeb_iff.mp (by decide), strLeb_iff.mp (by decide)⟩

/-! ## C9: frontmatter date normalization -/

theorem matchLeadingDate_eq (l : List Char) :
    matchLeadingDate l =
      if isDateTokenChars (l.take 10) = true then some (l.take 10) else none := by
  rcases l with - | ⟨a, - | ⟨b, - | ⟨c, - | ⟨d, - | ⟨s1, - | ⟨e, - | ⟨f, - | ⟨s2, - | ⟨g, - | ⟨h, rest⟩⟩⟩⟩⟩⟩⟩⟩⟩⟩ <;> rfl

/-- **C9**: `normalizeDate` accepts a string iff its first ten characters
match `\d{4}-\d{2}-\d{2}` and returns exactly those ten characters (so an ISO
timestamp keeps its date part); an object with numeric `year`/`month`/`day`
gives the token with zero-padded month and day (year unpadded); every other
value — `null`, `undefined`, booleans, numbers, objects with a missing or
non-numeric field — yields `none`.  The function is total by construction. -/
theorem normalizeDate_spec :
    (∀ s : String, normalizeDate (.vStr s) =
      if isDateTokenChars (s.data.take 10) = true then some ⟨s.data.take 10⟩ else none) ∧
    (∀ y m d : Int, normalizeDate (.vObj (some y) (some m) (some d)) =
      some (jsIntToString y ++ "-" ++ padStart2 (jsIntToString m) ++ "-" ++
        padStart2 (jsIntToString d))) ∧
    normalizeDate (.vStr "2025-01-15T10:00:00") = some "2025-01-15" ∧
    normalizeDate .vNull = none ∧
    normalizeDate .vUndef = none ∧
    (∀ b, normalizeDate (.vBool b) = none) ∧
    (∀ n : Int, normalizeDate (.vNum n) = none) ∧
    (∀ y m d : Option Int, y = none ∨ m = none ∨ d = none →
      normalizeDate (.vObj y m d) = none) := by
  refine ⟨?_, ?_, by decide, rfl, rfl, ?_, ?_, ?_⟩
  · intro s
    obtain ⟨l⟩ := s
    cases l with
    | nil => rfl
    | cons a l =>
      have hstep : normalizeDate (.vStr ⟨a :: l⟩) =
          (match matchLeadingDate (a :: l) with
            | some tok => some ⟨tok⟩
            | none => none) := rfl
      rw [hstep, matchLeadingDate_eq]
      cases hm : isDateTokenChars ((a :: l).take 10) with
      | true => simp [hm]
      | false => simp [hm]
  · intro y m d
    rfl
  · intro b
    cases b <;> rfl
  · intro n
    by_cases h : n = 0
    · subst h; rfl
    · simp [normalizeDate, FmValue.falsy, h]
  · rintro y m d (rfl | rfl | rfl)
    · rfl
    · cases y <;> rfl
    · cases y <;> cases m <;> rfl

/-- **C9 witness**: an object value normalizes with zero-padded month/day. -/
theorem normalizeDate_spec_witness :
    normalizeDate (.vObj none (some 1) (some 5)) = none :=
  normalizeDate_spec.2.2.2.2.2.2.2 none (some 1) (some 5) (Or.inl rfl)

/-! ## C2: the date parser performs no shape validation -/

/-- **C2 counterexample**: `"2025-1-5"` does not have the `\d{4}-\d{2}-\d{2}`
shape, yet `parseDate` produces the date 2025-01-05 instead of failing. -/
theorem parseDate_lenient_cex :
    parseDate "2025-1-5" = some ⟨2025, 0, 5⟩ ∧
      isDateTokenChars "2025-1-5".data = false := by
  constructor
  · rfl
  · rfl

/-- **C2 (amended)**: `parseDate` does not validate the token shape: whenever
the first three `-`-separated fields convert under `Number`, it returns the
(normalized) date built from them — single-digit months and days included —
and it yields an Invalid Date (`none`) exactly when one of those fields is
NaN. -/
theorem parseDate_spec :
    (∀ (s : String) (y m d : Int),
      jsNumberAt (splitOnChar '-' s.data) 0 = some y →
      jsNumberAt (splitOnChar '-' s.data) 1 = some m →
      jsNumberAt (splitOnChar '-' s.data) 2 = some d →
      parseDate s = some (mkDate y (m - 1) d)) ∧
    (∀ s : String, parseDate s = none ↔
      (jsNumberAt (splitOnChar '-' s.data) 0 = none ∨
       jsNumberAt (splitOnChar '-' s.data) 1 = none ∨
       jsNumberAt (splitOnChar '-' s.data) 2 = none)) := by
  constructor
  · intro s y m d h0 h1 h2
    simp [parseDate, h0, h1, h2]
  · intro s
    unfold parseDate
    rcases h0 : jsNumberAt (splitOnChar '-' s.data) 0 with - | y <;>
      rcases h1 : jsNumberAt (splitOnChar '-' s.data) 1 with - | m <;>
        rcases h2 : jsNumberAt (splitOnChar '-' s.data) 2 with - | d <;>
          simp [h0, h1, h2]

/-- **C2 witness**: the amended theorem applied to the lenient token. -/
theorem parseDate_spec_witness :
    parseDate "2025-1-5" = some (mkDate 2025 0 5) :=
  parseDate_spec.1 "2025-1-5" 2025 1 5 rfl rfl rfl

/-! ## C3: the annotation parser -/

theorem isWs_false_of_isDigit {c : Char} (h : isDigit c = true) : isWs c = false := by
  simp only [isDigit, Bool.and_eq_true, decide_eq_true_eq] at h
  simp only [isWs, Bool.or_eq_false_iff, beq_eq_false_iff_ne, ne_eq]
  omega

theorem dropWhile_append_of_all {p : Char → Bool} {a b : List Char}
    (h : ∀ c ∈ a, p c = true) :
    (a ++ b).dropWhile p = b.dropWhile p := by
  induction a with
  | nil => rfl
  | cons x xs ih =>
    rw [List.cons_append, List.dropWhile_cons, if_pos (h x (List.mem_cons_self x xs))]
    exact ih (fun c hc => h c (List.mem_cons_of_mem x hc))

theorem ne_dot_of_isDigit {c : Char} (h : isDigit c = true) : c ≠ '.' := by
  rintro rfl
  exact absurd h (by decide)

/-- **C3**: a text ending (after optional trailing whitespace) in a
single-date annotation `@YYYY-MM-DD` yields that date as both start and due,
with the annotation and the whitespace before it removed from the tail and
the remainder trimmed; a text matching none of the four trailing annotation
forms is returned unchanged with both dates absent. -/
theorem extractDatesFromText_spec :
    (∀ (p w tok : List Char), isDateTokenChars tok = true → (∀ c ∈ w, isWs c = true) →
      extractDatesFromText ⟨p ++ '@' :: tok ++ w⟩ = ⟨jsTrim ⟨p⟩, some ⟨tok⟩, some ⟨tok⟩⟩) ∧
    (∀ text : String, matchRange text = none → matchStartOnly text = none →
      matchDueOnly text = none → matchSimple text = none →
      extractDatesFromText text = ⟨text, none, none⟩) := by
  constructor
  · intro p w tok htok hw
    rcases tok with - | ⟨a, - | ⟨b, - | ⟨c, - | ⟨d, - | ⟨s1, - | ⟨e, - | ⟨f, - | ⟨s2, - | ⟨g, - | ⟨h, - | ⟨x, rest⟩⟩⟩⟩⟩⟩⟩⟩⟩⟩⟩ <;>
      try exact Bool.noConfusion htok
    simp only [List.cons_append, List.append_assoc, List.nil_append]
    simp only [isDateTokenChars, Bool.and_eq_true, beq_iff_eq, decide_eq_true_eq] at htok
    obtain ⟨⟨⟨⟨⟨⟨⟨⟨⟨ha, hb⟩, hc⟩, hd⟩, hs1⟩, he⟩, hf⟩, hs2⟩, hg⟩, hh⟩ := htok
    subst hs1
    subst hs2
    have hwrev : ∀ c ∈ w.reverse, isWs c = true := fun c hc => hw c (List.mem_reverse.mp hc)
    have hr : ((⟨p ++ '@' :: a :: b :: c :: d :: '-' :: e :: f :: '-' :: g :: h :: w⟩ :
          String)).data.reverse.dropWhile isWs
        = h :: g :: '-' :: f :: e :: '-' :: d :: c :: b :: a :: '@' :: p.reverse := by
      show (p ++ '@' :: a :: b :: c :: d :: '-' :: e :: f :: '-' :: g :: h :: w).reverse.dropWhile isWs = _
      rw [show (p ++ '@' :: a :: b :: c :: d :: '-' :: e :: f :: '-' :: g :: h :: w : List Char)
          = (p ++ ['@', a, b, c, d, '-', e, f, '-', g, h]) ++ w from by simp]
      rw [List.reverse_append, dropWhile_append_of_all hwrev, List.reverse_append]
      show (h :: g :: '-' :: f :: e :: '-' :: d :: c :: b :: a :: '@' :: p.reverse).dropWhile isWs = _
      rw [List.dropWhile_cons, if_neg (by rw [isWs_false_of_isDigit hh]; simp)]
    have hmd : matchDateRev (h :: g :: '-' :: f :: e :: '-' :: d :: c :: b :: a :: '@' :: p.reverse)
        = some ([a, b, c, d, '-', e, f, '-', g, h], '@' :: p.reverse) := by
      simp [matchDateRev, ha, hb, hc, hd, he, hf, hg, hh]
    have hRange : matchRange ⟨p ++ '@' :: a :: b :: c :: d :: '-' :: e :: f :: '-' :: g :: h :: w⟩ = none := by
      unfold matchRange
      rw [hr]
      rcases p.reverse with - | ⟨q, qs⟩ <;>
        simp [matchDateRev, ha, hb, hc, hd, he, hf, hg, hh]
    have hStart : matchStartOnly ⟨p ++ '@' :: a :: b :: c :: d :: '-' :: e :: f :: '-' :: g :: h :: w⟩ = none := by
      unfold matchStartOnly
      rw [hr]
      simp [ne_dot_of_isDigit hh]
    have hDue : matchDueOnly ⟨p ++ '@' :: a :: b :: c :: d :: '-' :: e :: f :: '-' :: g :: h :: w⟩ = none := by
      unfold matchDueOnly
      rw [hr]
      rcases p.reverse with - | ⟨q, - | ⟨q2, qs⟩⟩ <;>
        simp [matchDateRev, ha, hb, hc, hd, he, hf, hg, hh]
    have hSimple : matchSimple ⟨p ++ '@' :: a :: b :: c :: d :: '-' :: e :: f :: '-' :: g :: h :: w⟩
        = some ⟨jsTrim ⟨p⟩, some ⟨[a, b, c, d, '-', e, f, '-', g, h]⟩,
            some ⟨[a, b, c, d, '-', e, f, '-', g, h]⟩⟩ := by
      unfold matchSimple
      rw [hr]
      simp [hmd, remainderText]
    unfold extractDatesFromText
    rw [hRange, hStart, hDue, hSimple]
  · intro text h1 h2 h3 h4
    unfold extractDatesFromText
    rw [h1, h2, h3, h4]

/-- **C3 witness**: the spec's own single-date example. -/
theorem extractDatesFromText_spec_witness :
    extractDatesFromText "Buy milk @2025-01-15" =
      ⟨"Buy milk", some "2025-01-15", some "2025-01-15"⟩ := by
  have h := extractDatesFromText_spec.1 "Buy milk ".data [] "2025-01-15".data
    (by decide) (fun c hc => absurd hc (List.not_mem_nil c))
  have e1 : (⟨"Buy milk ".data ++ '@' :: "2025-01-15".data ++ []⟩ : String)
      = "Buy milk @2025-01-15" := by decide
  have e2 : jsTrim ⟨"Buy milk ".data⟩ = "Buy milk" := by decide
  have e3 : (⟨"2025-01-15".data⟩ : String) = "2025-01-15" := by decide
  rw [e1, e2, e3] at h
  exact h

/-! ## C5: completed task notes are suppressed everywhere -/

theorem shouldShowTaskNoteOnDate_done {n : TaskNote} {d : String} (h : n.done = true) :
    shouldShowTaskNoteOnDate n d = false := by
  simp [shouldShowTaskNoteOnDate, h]

theorem isTaskNoteActiveOnDate_done {n : TaskNote} {d : String} (h : n.done = true) :
    isTaskNoteActiveOnDate n d = false := by
  simp [isTaskNoteActiveOnDate, h]

theorem getTasksForDate_notes_not_done {dateStr : String} {dailies : List DailyNote}
    {notes : List TaskNote} {items : List TaskItem} :
    ∀ n ∈ (getTasksForDate dateStr dailies notes items).taskNotes, n.done = false := by
  intro n hn
  unfold getTasksForDate at hn
  dsimp only at hn
  rw [List.mem_filter] at hn
  by_contra hdone
  rw [shouldShowTaskNoteOnDate_done (Bool.not_eq_false _ ▸ hdone)] at hn
  exact Bool.noConfusion hn.2

theorem mem_sortDates {l : List String} {d : String} : d ∈ sortDates l ↔ d ∈ l :=
  (List.perm_insertionSort _ l).mem_iff

theorem mem_buildDateMap_imp {dates : List String} {dailies : List DailyNote}
    {notes : List TaskNote} {items : List TaskItem} {pr : String × CategoryData}
    (hpr : pr ∈ buildDateMap dates dailies notes items) :
    pr.1 ∈ dates ∧ pr.2 = getTasksForDate pr.1 dailies notes items := by
  unfold buildDateMap at hpr
  rw [List.mem_filterMap] at hpr
  obtain ⟨d, hd, hf⟩ := hpr
  dsimp only at hf
  split at hf
  · rw [Option.some_inj] at hf
    subst hf
    exact ⟨mem_sortDates.mp hd, rfl⟩
  · exact Option.noConfusion hf

/-- **C5**: a completed (`done = true`) task note is in no bucket of the
categorized result: not in any Overdue date bucket, not in Today, not in any
Upcoming date bucket, and not in No-Schedule. -/
theorem getTasksByCategory_done_suppressed (today : JsDate) (notes : List TaskNote)
    (dailies : List DailyNote) (items : List TaskItem) (n : TaskNote)
    (hdone : n.done = true) :
    (∀ pr ∈ (getTasksByCategory today notes dailies items).overdue, n ∉ pr.2.taskNotes) ∧
    n ∉ (getTasksByCategory today notes dailies items).today.taskNotes ∧
    (∀ pr ∈ (getTasksByCategory today notes dailies items).upcoming, n ∉ pr.2.taskNotes) ∧
    n ∉ (getTasksByCategory today notes dailies items).noSchedule := by
  have hnotfalse : ¬ n.done = false := by rw [hdone]; simp
  refine ⟨?_, ?_, ?_, ?_⟩
  · intro pr hpr hmem
    have h2 := (mem_buildDateMap_imp hpr).2
    rw [h2] at hmem
    exact hnotfalse (getTasksForDate_notes_not_done n hmem)
  · intro hmem
    have : (getTasksByCategory today notes dailies items).today.taskNotes
        = notes.filter (fun m => isTaskNoteActiveOnDate m (formatDate today)) := rfl
    rw [this, List.mem_filter] at hmem
    rw [isTaskNoteActiveOnDate_done hdone] at hmem
    exact Bool.noConfusion hmem.2
  · intro pr hpr hmem
    have h2 := (mem_buildDateMap_imp hpr).2
    rw [h2] at hmem
    exact hnotfalse (getTasksForDate_notes_not_done n hmem)
  · intro hmem
    have : (getTasksByCategory today notes dailies items).noSchedule
        = notes.filter (fun m => !m.done && !truthy m.startDate && !truthy m.dueDate) := rfl
    rw [this, List.mem_filter] at hmem
    rw [hdone] at hmem
    simp at hmem

/-- **C5 witness**: a completed note with a past due date, checked against a
January-15 reference date. -/
theorem getTasksByCategory_done_suppressed_witness :
    (∀ pr ∈ (getTasksByCategory (mkDate 2025 0 15)
        [⟨"done-note", none, some "2025-01-10", true⟩] [] []).overdue,
      (⟨"done-note", none, some "2025-01-10", true⟩ : TaskNote) ∉ pr.2.taskNotes) ∧
    (⟨"done-note", none, some "2025-01-10", true⟩ : TaskNote) ∉
      (getTasksByCategory (mkDate 2025 0 15)
        [⟨"done-note", none, some "2025-01-10", true⟩] [] []).today.taskNotes :=
  ⟨(getTasksByCategory_done_suppressed (mkDate 2025 0 15)
      [⟨"done-note", none, some "2025-01-10", true⟩] [] []
      ⟨"done-note", none, some "2025-01-10", true⟩ rfl).1,
   (getTasksByCategory_done_suppressed (mkDate 2025 0 15)
      [⟨"done-note", none, some "2025-01-10", true⟩] [] []
      ⟨"done-note", none, some "2025-01-10", true⟩ rfl).2.1⟩

/-! ## C1 / C6: the Overdue and Upcoming date sets -/

theorem mem_addDate {l : List String} {v d : String} : d ∈ addDate l v ↔ d ∈ l ∨ d = v := by
  unfold addDate
  split
  · constructor
    · exact Or.inl
    · rintro (h | rfl)
      · exact h
      · assumption
  · rw [List.mem_append, List.mem_singleton]

theorem mem_foldl_addIf {α : Type} (cond : α → Bool) (val : α → String) (l : List α)
    (s0 : List String) (d : String) :
    d ∈ l.foldl (fun s x => if cond x then addDate s (val x) else s) s0 ↔
      d ∈ s0 ∨ ∃ x ∈ l, cond x = true ∧ d = val x := by
  induction l generalizing s0 with
  | nil => simp
  | cons x xs ih =>
    rw [List.foldl_cons, ih]
    have hstep : d ∈ (if cond x then addDate s0 (val x) else s0) ↔
        d ∈ s0 ∨ (cond x = true ∧ d = val x) := by
      by_cases hc : cond x = true
      · rw [if_pos hc, mem_addDate]
        tauto
      · rw [if_neg hc]
        tauto
    rw [hstep]
    constructor
    · rintro ((hs | hx) | ⟨y, hy, hcy, hdy⟩)
      · exact Or.inl hs
      · exact Or.inr ⟨x, List.mem_cons_self x xs, hx⟩
      · exact Or.inr ⟨y, List.mem_cons_of_mem x hy, hcy, hdy⟩
    · rintro (hs | ⟨y, hy, hcy, hdy⟩)
      · exact Or.inl (Or.inl hs)
      · rcases List.mem_cons.mp hy with rfl | hy2
        · exact Or.inl (Or.inr ⟨hcy, hdy⟩)
        · exact Or.inr ⟨y, hy2, hcy, hdy⟩

theorem mem_foldl_addIf2 {α : Type} (c1 c2 : α → Bool) (v1 v2 : α → String) (l : List α)
    (s0 : List String) (d : String) :
    d ∈ l.foldl (fun s x =>
      let s1 := if c1 x then addDate s (v1 x) else s
      if c2 x then addDate s1 (v2 x) else s1) s0 ↔
      d ∈ s0 ∨ ∃ x ∈ l, (c1 x = true ∧ d = v1 x) ∨ (c2 x = true ∧ d = v2 x) := by
  induction l generalizing s0 with
  | nil => simp
  | cons x xs ih =>
    rw [List.foldl_cons, ih]
    have hstep : d ∈ (let s1 := if c1 x then addDate s0 (v1 x) else s0
          if c2 x then addDate s1 (v2 x) else s1) ↔
        d ∈ s0 ∨ ((c1 x = true ∧ d = v1 x) ∨ (c2 x = true ∧ d = v2 x)) := by
      dsimp only
      by_cases h1 : c1 x = true <;> by_cases h2 : c2 x = true <;>
        simp [h1, h2, mem_addDate] <;> tauto
    rw [hstep]
    constructor
    · rintro ((hs | hx) | ⟨y, hy, hcy⟩)
      · exact Or.inl hs
      · exact Or.inr ⟨x, List.mem_cons_self x xs, hx⟩
      · exact Or.inr ⟨y, List.mem_cons_of_mem x hy, hcy⟩
    · rintro (hs | ⟨y, hy, hcy⟩)
      · exact Or.inl (Or.inl hs)
      · rcases List.mem_cons.mp hy with rfl | hy2
        · exact Or.inl (Or.inr hcy)
        · exact Or.inr ⟨y, hy2, hcy⟩

theorem truthy_getD_eq {o : Option String} {d : String}
    (h : truthy o = true) (he : d = o.getD "") : o = some d ∧ d ≠ "" := by
  cases o with
  | none => exact Bool.noConfusion h
  | some v =>
    simp only [truthy, Bool.not_eq_true'] at h
    simp only [Option.getD_some] at he
    subst he
    refine ⟨rfl, ?_⟩
    intro hv
    rw [hv] at h
    exact Bool.noConfusion h

theorem truthy_of_some_ne {o : Option String} {d : String}
    (ho : o = some d) (hne : d ≠ "") : truthy o = true ∧ o.getD "" = d := by
  subst ho
  exact ⟨truthy_some_of_ne hne, rfl⟩

/-- Membership in the Overdue date set, in terms of the raw guards. -/
theorem mem_overdueDatesOf {todayStr : String} {dailies : List DailyNote}
    {notes : List TaskNote} {items : List TaskItem} {d : String} :
    d ∈ overdueDatesOf todayStr dailies notes items ↔
      (∃ nt ∈ dailies, nt.date = d ∧ d < todayStr ∧ nt.taskItems ≠ []) ∨
      (∃ n ∈ notes, n.done = false ∧ n.dueDate = some d ∧ d ≠ "" ∧ d < todayStr) ∨
      (∃ i ∈ items, i.dueDate = some d ∧ d ≠ "" ∧ d < todayStr) := by
  unfold overdueDatesOf
  rw [mem_foldl_addIf, mem_foldl_addIf, mem_foldl_addIf]
  simp only [List.not_mem_nil, false_or, Bool.and_eq_true, Bool.not_eq_true']
  constructor
  · rintro ((⟨nt, hnt, ⟨hlt, hne⟩, rfl⟩ | ⟨n, hn, ⟨⟨hdone, htr⟩, hlt⟩, hd⟩) |
        ⟨i, hi, ⟨htr, hlt⟩, hd⟩)
    · exact Or.inl ⟨nt, hnt, rfl, strLtb_iff.mp hlt, by simpa using hne⟩
    · obtain ⟨hsome, hdne⟩ := truthy_getD_eq htr hd
      rw [← hd] at hlt
      exact Or.inr (Or.inl ⟨n, hn, hdone, hsome, hdne, strLtb_iff.mp hlt⟩)
    · obtain ⟨hsome, hdne⟩ := truthy_getD_eq htr hd
      rw [← hd] at hlt
      exact Or.inr (Or.inr ⟨i, hi, hsome, hdne, strLtb_iff.mp hlt⟩)
  · rintro (⟨nt, hnt, rfl, hlt, hne⟩ | ⟨n, hn, hdone, hsome, hdne, hlt⟩ |
        ⟨i, hi, hsome, hdne, hlt⟩)
    · exact Or.inl (Or.inl ⟨nt, hnt, ⟨strLtb_iff.mpr hlt, by simpa using hne⟩, rfl⟩)
    · obtain ⟨htr, hget⟩ := truthy_of_some_ne hsome hdne
      refine Or.inl (Or.inr ⟨n, hn, ⟨⟨hdone, htr⟩, ?_⟩, hget.symm⟩)
      rw [hget]
      exact strLtb_iff.mpr hlt
    · obtain ⟨htr, hget⟩ := truthy_of_some_ne hsome hdne
      refine Or.inr ⟨i, hi, ⟨htr, ?_⟩, hget.symm⟩
      rw [hget]
      exact strLtb_iff.mpr hlt

/-- **C1 counterexample**: an incomplete task note whose `startDate`
(2025-01-01) is strictly before the reference date contributes nothing to the
Overdue set — the claim would require `"2025-01-01"` to be a member, but the
set is empty and the Overdue map has no buckets. -/
theorem overdue_startDate_cex :
    ¬ ("2025-01-01" ∈ overdueDatesOf "2025-06-01" []
        [⟨"n", some "2025-01-01", none, false⟩] []) ∧
    strLtb "2025-01-01" "2025-06-01" = true ∧
    (getTasksByCategory (mkDate 2025 5 1)
      [⟨"n", some "2025-01-01", none, false⟩] [] []).overdue = [] := by
  refine ⟨by decide, by decide, by decide⟩

/-- **C1 (amended)**: membership in the Overdue set of dates is the union of
(a) dates of DailyNotes strictly before the reference date having at least
one (incomplete) item, (b) the *due* dates of incomplete TaskNotes strictly
before the reference date, and (c) the *due* dates of inline TaskItems
(which are incomplete by construction) strictly before the reference date.
Start dates are never Overdue boundaries. -/
theorem overdueDates_characterization (todayStr : String) (dailies : List DailyNote)
    (notes : List TaskNote) (items : List TaskItem) (d : String) :
    d ∈ overdueDatesOf todayStr dailies notes items ↔
      (∃ nt ∈ dailies, nt.date = d ∧ d < todayStr ∧ nt.taskItems ≠ []) ∨
      (∃ n ∈ notes, n.done = false ∧ n.dueDate = some d ∧ d ≠ "" ∧ d < todayStr) ∨
      (∃ i ∈ items, i.dueDate = some d ∧ d ≠ "" ∧ d < todayStr) :=
  mem_overdueDatesOf

/-- **C1 witness**: a due date before the reference date is in the set. -/
theorem overdueDates_characterization_witness :
    "2025-01-10" ∈ overdueDatesOf "2025-06-01" []
      [⟨"n", none, some "2025-01-10", false⟩] [] :=
  (overdueDates_characterization "2025-06-01" []
      [⟨"n", none, some "2025-01-10", false⟩] [] "2025-01-10").mpr
    (Or.inr (Or.inl ⟨⟨"n", none, some "2025-01-10", false⟩, List.mem_singleton.mpr rfl,
      rfl, rfl, by decide, string_lt_iff.mpr (lexLtb_iff.mp (by decide))⟩))

/-- Membership in the Upcoming date set. -/
theorem mem_upcomingDatesOf {todayStr weekLater : String} {dailies : List DailyNote}
    {notes : List TaskNote} {items : List TaskItem} {d : String} :
    d ∈ upcomingDatesOf todayStr weekLater dailies notes items ↔
      (∃ nt ∈ dailies, nt.date = d ∧ todayStr < d ∧ d ≤ weekLater ∧ nt.taskItems ≠ []) ∨
      (∃ n ∈ notes, n.done = false ∧ (n.dueDate = some d ∨ n.startDate = some d) ∧
        d ≠ "" ∧ todayStr < d ∧ d ≤ weekLater) ∨
      (∃ i ∈ items, (i.dueDate = some d ∨ i.startDate = some d) ∧
        d ≠ "" ∧ todayStr < d ∧ d ≤ weekLater) := by
  unfold upcomingDatesOf
  rw [mem_foldl_addIf2, mem_foldl_addIf2, mem_foldl_addIf]
  simp only [List.not_mem_nil, false_or, Bool.and_eq_true, Bool.not_eq_true']
  constructor
  · rintro ((⟨nt, hnt, ⟨⟨hlt, hle⟩, hne⟩, rfl⟩ | ⟨n, hn, hInner⟩) | ⟨i, hi, hInner⟩)
    · exact Or.inl ⟨nt, hnt, rfl, strLtb_iff.mp hlt, strLeb_iff.mp hle, by simpa using hne⟩
    · rcases hInner with ⟨⟨⟨⟨hdone, htr⟩, hlt⟩, hle⟩, hd⟩ | ⟨⟨⟨⟨hdone, htr⟩, hlt⟩, hle⟩, hd⟩
      · obtain ⟨hsome, hdne⟩ := truthy_getD_eq htr hd
        rw [← hd] at hlt hle
        exact Or.inr (Or.inl ⟨n, hn, hdone, Or.inl hsome, hdne,
          strLtb_iff.mp hlt, strLeb_iff.mp hle⟩)
      · obtain ⟨hsome, hdne⟩ := truthy_getD_eq htr hd
        rw [← hd] at hlt hle
        exact Or.inr (Or.inl ⟨n, hn, hdone, Or.inr hsome, hdne,
          strLtb_iff.mp hlt, strLeb_iff.mp hle⟩)
    · rcases hInner with ⟨⟨⟨htr, hlt⟩, hle⟩, hd⟩ | ⟨⟨⟨htr, hlt⟩, hle⟩, hd⟩
      · obtain ⟨hsome, hdne⟩ := truthy_getD_eq htr hd
        rw [← hd] at hlt hle
        exact Or.inr (Or.inr ⟨i, hi, Or.inl hsome, hdne, strLtb_iff.mp hlt, strLeb_iff.mp hle⟩)
      · obtain ⟨hsome, hdne⟩ := truthy_getD_eq htr hd
        rw [← hd] at hlt hle
        exact Or.inr (Or.inr ⟨i, hi, Or.inr hsome, hdne, strLtb_iff.mp hlt, strLeb_iff.mp hle⟩)
  · rintro (⟨nt, hnt, rfl, hlt, hle, hne⟩ |
        ⟨n, hn, hdone, hsome | hsome, hdne, hlt, hle⟩ |
        ⟨i, hi, hsome | hsome, hdne, hlt, hle⟩)
    · exact Or.inl (Or.inl ⟨nt, hnt, ⟨⟨strLtb_iff.mpr hlt, strLeb_iff.mpr hle⟩,
        by simpa using hne⟩, rfl⟩)
    · obtain ⟨htr, hget⟩ := truthy_of_some_ne hsome hdne
      refine Or.inl (Or.inr ⟨n, hn, Or.inl ⟨⟨⟨⟨hdone, htr⟩, ?_⟩, ?_⟩, hget.symm⟩⟩) <;>
        rw [hget]
      · exact strLtb_iff.mpr hlt
      · exact strLeb_iff.mpr hle
    · obtain ⟨htr, hget⟩ := truthy_of_some_ne hsome hdne
      refine Or.inl (Or.inr ⟨n, hn, Or.inr ⟨⟨⟨⟨hdone, htr⟩, ?_⟩, ?_⟩, hget.symm⟩⟩) <;>
        rw [hget]
      · exact strLtb_iff.mpr hlt
      · exact strLeb_iff.mpr hle
    · obtain ⟨htr, hget⟩ := truthy_of_some_ne hsome hdne
      refine Or.inr ⟨i, hi, Or.inl ⟨⟨⟨htr, ?_⟩, ?_⟩, hget.symm⟩⟩ <;> rw [hget]
      · exact strLtb_iff.mpr hlt
      · exact strLeb_iff.mpr hle
    · obtain ⟨htr, hget⟩ := truthy_of_some_ne hsome hdne
      refine Or.inr ⟨i, hi, Or.inr ⟨⟨⟨htr, ?_⟩, ?_⟩, hget.symm⟩⟩ <;> rw [hget]
      · exact strLtb_iff.mpr hlt
      · exact strLeb_iff.mpr hle

/-- **C6**: every key of the Upcoming map lies in the open-closed range
`(referenceDate, referenceDate + 14 days]` (both ends as canonical tokens),
and the Upcoming date set is exactly the union of daily-note dates in that
range having at least one item and the boundary (start or due) dates of
incomplete task notes and of task items in that range. -/
theorem upcoming_spec (today : JsDate) (notes : List TaskNote) (dailies : List DailyNote)
    (items : List TaskItem) :
    (∀ pr ∈ (getTasksByCategory today notes dailies items).upcoming,
      formatDate today < pr.1 ∧ pr.1 ≤ formatDate (addDays today 14)) ∧
    (∀ d, d ∈ upcomingDatesOf (formatDate today) (formatDate (addDays today 14))
        dailies notes items ↔
      ((∃ nt ∈ dailies, nt.date = d ∧ formatDate today < d ∧
          d ≤ formatDate (addDays today 14) ∧ nt.taskItems ≠ []) ∨
       (∃ n ∈ notes, n.done = false ∧ (n.dueDate = some d ∨ n.startDate = some d) ∧
          d ≠ "" ∧ formatDate today < d ∧ d ≤ formatDate (addDays today 14)) ∨
       (∃ i ∈ items, (i.dueDate = some d ∨ i.startDate = some d) ∧
          d ≠ "" ∧ formatDate today < d ∧ d ≤ formatDate (addDays today 14)))) := by
  constructor
  · intro pr hpr
    have hup : (getTasksByCategory today notes dailies items).upcoming =
        buildDateMap (upcomingDatesOf (formatDate today) (formatDate (addDays today 14))
          dailies notes items) dailies notes items := rfl
    rw [hup] at hpr
    have hmem := (mem_buildDateMap_imp hpr).1
    rcases mem_upcomingDatesOf.mp hmem with
      ⟨nt, -, -, hlt, hle, -⟩ | ⟨n, -, -, -, -, hlt, hle⟩ | ⟨i, -, -, -, hlt, hle⟩
    · exact ⟨hlt, hle⟩
    · exact ⟨hlt, hle⟩
    · exact ⟨hlt, hle⟩
  · intro d
    exact mem_upcomingDatesOf

/-- **C6 witness**: a due date five days after the reference date appears as
an Upcoming key and satisfies the range bounds. -/
theorem upcoming_spec_witness :
    formatDate (mkDate 2025 0 15) < "2025-01-20" ∧
      "2025-01-20" ≤ formatDate (addDays (mkDate 2025 0 15) 14) :=
  (upcoming_spec (mkDate 2025 0 15) [⟨"n2", none, some "2025-01-20", false⟩] [] []).1
    ("2025-01-20", ⟨[], [⟨"n2", none, some "2025-01-20", false⟩]⟩) (by decide)

/-! ## C10: breadcrumb construction -/

theorem buildBreadcrumbsAux_eq (lookup : Int → Option MListItem) (lines : List String) :
    ∀ (fuel : Nat) (parentLine : Int) (acc : List String),
      buildBreadcrumbsAux lookup lines fuel parentLine acc =
        ((ancestorLines lookup fuel parentLine).map
          (fun l => normalizeLineText (lineAt lines l))).filter (fun t => !strEmpty t) ++ acc := by
  intro fuel
  induction fuel with
  | zero => intro p acc; rfl
  | succ fuel ih =>
    intro p acc
    unfold buildBreadcrumbsAux ancestorLines
    by_cases hp : 0 ≤ p
    · rw [if_pos hp, if_pos hp]
      cases hl : lookup p with
      | none => simp
      | some it =>
        dsimp only
        rw [ih]
        rw [List.map_append, List.filter_append]
        by_cases ht : strEmpty (normalizeLineText (lineAt lines p)) = true
        · simp [ht]
        · rw [Bool.not_eq_true] at ht
          simp [ht]
    · rw [if_neg hp, if_neg hp]
      simp

/-- **C10**: the breadcrumbs of an item are exactly the normalized texts of
the visited ancestor chain (outermost first), keeping only those ancestors
whose line text is nonempty after checkbox-prefix removal, trailing
annotation extraction and markdown stripping — an ancestor that normalizes
to the empty string is skipped while the walk still continues through its
own ancestors. -/
theorem buildBreadcrumbs_spec (fuel : Nat) (item : MListItem)
    (lookup : Int → Option MListItem) (lines : List String) :
    buildBreadcrumbs fuel item lookup lines =
      ((ancestorLines lookup fuel item.parent).map
        (fun l => normalizeLineText (lineAt lines l))).filter (fun t => !strEmpty t) := by
  unfold buildBreadcrumbs
  rw [buildBreadcrumbsAux_eq]
  simp

/-! ## C8: the calendar grid -/

theorem calFold_inv (year month : Int) :
    ∀ (days : List Int) (weeks : List (List (Option JsDate))) (week : List (Option JsDate)),
      (∀ w ∈ weeks, w.length = 7) → week.length < 7 →
      (∀ w ∈ (days.foldl (calPush year month) (weeks, week)).1, w.length = 7) ∧
      (days.foldl (calPush year month) (weeks, week)).2.length < 7 ∧
      (days.foldl (calPush year month) (weeks, week)).1.flatten ++
          (days.foldl (calPush year month) (weeks, week)).2 =
        weeks.flatten ++ week ++ days.map (fun d => some (mkDate year month d)) := by
  intro days
  induction days with
  | nil =>
    intro weeks week h1 h2
    simpa using ⟨h1, h2⟩
  | cons d ds ih =>
    intro weeks week h1 h2
    rw [List.foldl_cons]
    have hstep : calPush year month (weeks, week) d =
        if (week ++ [some (mkDate year month d)]).length = 7
        then (weeks ++ [week ++ [some (mkDate year month d)]], ([] : List (Option JsDate)))
        else (weeks, week ++ [some (mkDate year month d)]) := rfl
    by_cases hw : (week ++ [some (mkDate year month d)]).length = 7
    · rw [hstep, if_pos hw]
      have h1' : ∀ w ∈ weeks ++ [week ++ [some (mkDate year month d)]], w.length = 7 := by
        intro w hwmem
        rcases List.mem_append.mp hwmem with h | h
        · exact h1 w h
        · rw [List.mem_singleton.mp h]
          exact hw
      obtain ⟨g1, g2, g3⟩ := ih (weeks ++ [week ++ [some (mkDate year month d)]]) []
        h1' (by simp)
      refine ⟨g1, g2, ?_⟩
      rw [g3]
      simp [List.flatten_append]
    · rw [hstep, if_neg hw]
      have hlen : (week ++ [some (mkDate year month d)]).length < 7 := by
        rw [List.length_append, List.length_singleton]
        rw [List.length_append, List.length_singleton] at hw
        omega
      obtain ⟨g1, g2, g3⟩ := ih weeks (week ++ [some (mkDate year month d)]) h1 hlen
      refine ⟨g1, g2, ?_⟩
      rw [g3]
      simp

theorem filterMap_id_replicate_none (k : Nat) :
    (List.replicate k (none : Option JsDate)).filterMap id = [] := by
  induction k with
  | zero => rfl
  | succ k ih => rw [List.replicate_succ, List.filterMap_cons]; exact ih

theorem filterMap_id_map (r : List Nat) (f : Nat → JsDate) :
    (r.map (fun i => some (f i))).filterMap id = r.map f := by
  induction r with
  | nil => rfl
  | cons x xs ih => rw [List.map_cons, List.filterMap_cons, List.map_cons, ih]; rfl

/-- **C8**: for every (year, month) the calendar grid consists of weeks of
exactly 7 cells; its concatenation is the leading empty cells (one per
weekday before day 1), then one cell per day 1..lastDayOfMonth in order,
then trailing empty padding; in particular the non-empty cells in traversal
order are exactly the days 1 through lastDayOfMonth. -/
theorem getCalendarDays_spec (year month : Int) :
    (∀ w ∈ getCalendarDays year month, w.length = 7) ∧
    (∃ k, (getCalendarDays year month).flatten =
      List.replicate ((getFirstDayOfMonth year month).getDay.toNat) none ++
        (List.range (getLastDayOfMonth year month).getDate.toNat).map
          (fun i : Nat => some (mkDate year month (Int.ofNat i + 1))) ++
        List.replicate k none) ∧
    (getCalendarDays year month).flatten.filterMap id =
      (List.range (getLastDayOfMonth year month).getDate.toNat).map
        (fun i : Nat => mkDate year month (Int.ofNat i + 1)) := by
  have hlead : ((getFirstDayOfMonth year month).getDay.toNat) < 7 := by
    have h1 := Int.emod_lt_of_pos (dayNumber (getFirstDayOfMonth year month))
      (by norm_num : (0 : Int) < 7)
    have h2 := Int.emod_nonneg (dayNumber (getFirstDayOfMonth year month))
      (by norm_num : (7 : Int) ≠ 0)
    unfold JsDate.getDay
    omega
  obtain ⟨g1, g2, g3⟩ := calFold_inv year month
    ((List.range (getLastDayOfMonth year month).getDate.toNat).map (fun i : Nat => Int.ofNat i + 1))
    [] (List.replicate (getFirstDayOfMonth year month).getDay.toNat none)
    (fun w hw => absurd hw (List.not_mem_nil w))
    (by simpa using hlead)
  rw [show ((List.range (getLastDayOfMonth year month).getDate.toNat).map
        (fun i : Nat => Int.ofNat i + 1)).map (fun d => some (mkDate year month d)) =
      (List.range (getLastDayOfMonth year month).getDate.toNat).map
        (fun i : Nat => some (mkDate year month (Int.ofNat i + 1))) from by
    rw [List.map_map]
    rfl] at g3
  rw [show ((List.range (getLastDayOfMonth year month).getDate.toNat).map
        (fun i : Nat => Int.ofNat i + 1)).foldl (calPush year month)
        ([], List.replicate (getFirstDayOfMonth year month).getDay.toNat none) =
      (List.range (getLastDayOfMonth year month).getDate.toNat).foldl
        (fun st i => calPush year month st (Int.ofNat i + 1))
        ([], List.replicate (getFirstDayOfMonth year month).getDay.toNat none) from
    List.foldl_map _ _ _ _] at g1 g2 g3
  simp only [List.flatten_nil, List.nil_append] at g3
  unfold getCalendarDays
  dsimp only
  split
  case isTrue hpos =>
    refine ⟨?_, ⟨7 - ((List.range (getLastDayOfMonth year month).getDate.toNat).foldl
        (fun st i => calPush year month st (Int.ofNat i + 1))
        ([], List.replicate (getFirstDayOfMonth year month).getDay.toNat none)).2.length, ?_⟩, ?_⟩
    · intro w hw
      rcases List.mem_append.mp hw with h | h
      · exact g1 w h
      · rw [List.mem_singleton.mp h]
        rw [List.length_append, List.length_replicate]
        omega
    · rw [List.flatten_append]
      simp only [List.flatten_cons, List.flatten_nil, List.append_nil]
      rw [← List.append_assoc, g3, List.append_assoc]
    · rw [List.flatten_append]
      simp only [List.flatten_cons, List.flatten_nil, List.append_nil]
      rw [← List.append_assoc, g3]
      rw [List.filterMap_append, List.filterMap_append, filterMap_id_replicate_none,
        filterMap_id_replicate_none, filterMap_id_map]
      simp
  case isFalse hpos =>
    have hnil : ((List.range (getLastDayOfMonth year month).getDate.toNat).foldl
        (fun st i => calPush year month st (Int.ofNat i + 1))
        ([], List.replicate (getFirstDayOfMonth year month).getDay.toNat none)).2 = [] := by
      rw [← List.length_eq_zero]
      omega
    rw [hnil, List.append_nil] at g3
    refine ⟨g1, ⟨0, ?_⟩, ?_⟩
    · rw [g3, List.replicate_zero, List.append_nil]
    · rw [g3, List.filterMap_append, filterMap_id_replicate_none, filterMap_id_map]
      simp

set_option maxRecDepth 4000 in
/-- **C8 witness**: the first week of January 2025 (which begins on a
Wednesday) has exactly 7 cells, 3 empty then days 1–4. -/
theorem getCalendarDays_spec_witness :
    ([none, none, none, some (mkDate 2025 0 1), some (mkDate 2025 0 2),
      some (mkDate 2025 0 3), some (mkDate 2025 0 4)] :
        List (Option JsDate)).length = 7 :=
  (getCalendarDays_spec 2025 0).1 _ (by decide)

/-! ## C7: the date codec — round-trip and order equivalence -/

theorem dc_toNat_min (x : Nat) : (decimalDigit x).toNat = 48 + min x 9 := by
  rcases x with _|_|_|_|_|_|_|_|_|x
  case zero => decide
  case succ.zero => decide
  case succ.succ.zero => decide
  case succ.succ.succ.zero => decide
  case succ.succ.succ.succ.zero => decide
  case succ.succ.succ.succ.succ.zero => decide
  case succ.succ.succ.succ.succ.succ.zero => decide
  case succ.succ.succ.succ.succ.succ.succ.zero => decide
  case succ.succ.succ.succ.succ.succ.succ.succ.zero => decide
  case succ.succ.succ.succ.succ.succ.succ.succ.succ =>
    have h9 : decimalDigit (x + 9) = '9' := rfl
    rw [h9]
    have hmin : min (x + 9) 9 = 9 := by omega
    rw [hmin]
    decide

theorem dc_isDigit (x : Nat) : isDigit (decimalDigit x) = true := by
  simp only [isDigit, Bool.and_eq_true, decide_eq_true_eq, dc_toNat_min]
  omega

theorem dc_lt_iff {x y : Nat} : decimalDigit x < decimalDigit y ↔ min x 9 < min y 9 := by
  rw [charLt_iff, dc_toNat_min, dc_toNat_min]
  omega

theorem dc_eq_iff {x y : Nat} : decimalDigit x = decimalDigit y ↔ min x 9 = min y 9 := by
  constructor
  · intro h
    have := congrArg Char.toNat h
    rw [dc_toNat_min, dc_toNat_min] at this
    omega
  · intro h
    apply char_eq_of_toNat_eq
    rw [dc_toNat_min, dc_toNat_min]
    omega

theorem natDigitsAux_congr : ∀ f1 f2 n : Nat, n < f1 → n < f2 →
    natDigitsAux f1 n = natDigitsAux f2 n := by
  intro f1
  induction f1 with
  | zero => intro f2 n h1 h2; omega
  | succ f ih =>
    intro f2 n h1 h2
    cases f2 with
    | zero => omega
    | succ g =>
      show (if n < 10 then [decimalDigit n]
          else natDigitsAux f (n / 10) ++ [decimalDigit (n % 10)]) =
        (if n < 10 then [decimalDigit n]
          else natDigitsAux g (n / 10) ++ [decimalDigit (n % 10)])
      by_cases hn : n < 10
      · rw [if_pos hn, if_pos hn]
      · rw [if_neg hn, if_neg hn, ih g (n / 10) (by omega) (by omega)]

theorem natDigits_small {n : Nat} (h : n < 10) : natDigits n = [decimalDigit n] := by
  show (if n < 10 then [decimalDigit n]
      else natDigitsAux n (n / 10) ++ [decimalDigit (n % 10)]) = _
  rw [if_pos h]

theorem natDigits_step {n : Nat} (h : 10 ≤ n) :
    natDigits n = natDigits (n / 10) ++ [decimalDigit (n % 10)] := by
  show (if n < 10 then [decimalDigit n]
      else natDigitsAux n (n / 10) ++ [decimalDigit (n % 10)]) = _
  rw [if_neg (by omega), natDigitsAux_congr n (n / 10 + 1) (n / 10) (by omega) (by omega)]
  rfl

theorem natDigits_two {n : Nat} (h1 : 10 ≤ n) (h2 : n ≤ 99) :
    natDigits n = [decimalDigit (n / 10), decimalDigit (n % 10)] := by
  rw [natDigits_step h1, natDigits_small (by omega)]
  rfl

theorem natDigits_four {n : Nat} (h1 : 1000 ≤ n) (h2 : n ≤ 9999) :
    natDigits n = [decimalDigit (n / 1000), decimalDigit (n / 100 % 10),
      decimalDigit (n / 10 % 10), decimalDigit (n % 10)] := by
  rw [natDigits_step (by omega), natDigits_step (by omega : 10 ≤ n / 10),
    natDigits_step (by omega : 10 ≤ n / 10 / 10),
    natDigits_small (by omega : n / 10 / 10 / 10 < 10)]
  have e1 : n / 10 / 10 / 10 = n / 1000 := by omega
  have e2 : n / 10 / 10 % 10 = n / 100 % 10 := by omega
  have e3 : n / 10 % 10 = n / 10 % 10 := rfl
  rw [e1, e2]
  rfl

theorem jsIntToString_nonneg {n : Int} (h : 0 ≤ n) :
    jsIntToString n = ⟨natDigits n.toNat⟩ := by
  unfold jsIntToString
  rw [if_neg (by omega)]

theorem pad2_digits {m : Nat} (h1 : 1 ≤ m) (h2 : m ≤ 99) :
    (padStart2 (jsIntToString (m : Int))).data =
      [decimalDigit (m / 10), decimalDigit (m % 10)] := by
  rw [jsIntToString_nonneg (by omega)]
  rw [show ((m : Int)).toNat = m from by omega]
  by_cases hm : m < 10
  · rw [natDigits_small hm]
    show (padStart2 ⟨[decimalDigit m]⟩).data = _
    unfold padStart2
    rw [if_pos (by rw [show (⟨[decimalDigit m]⟩ : String).length = 1 from rfl]; omega)]
    show List.replicate 1 '0' ++ [decimalDigit m] = _
    rw [show m / 10 = 0 from by omega, show m % 10 = m from by omega]
    rfl
  · rw [natDigits_two (by omega) h2]
    show (padStart2 ⟨[decimalDigit (m / 10), decimalDigit (m % 10)]⟩).data = _
    unfold padStart2
    rw [if_neg (by
      rw [show (⟨[decimalDigit (m / 10), decimalDigit (m % 10)]⟩ : String).length = 2 from rfl]
      omega)]

theorem formatDate_data (t : JsDate) (h : ValidDate t) :
    (formatDate t).data =
      [decimalDigit (t.year.toNat / 1000), decimalDigit (t.year.toNat / 100 % 10),
       decimalDigit (t.year.toNat / 10 % 10), decimalDigit (t.year.toNat % 10), '-',
       decimalDigit ((t.month + 1) / 10), decimalDigit ((t.month + 1) % 10), '-',
       decimalDigit (t.day.toNat / 10), decimalDigit (t.day.toNat % 10)] := by
  obtain ⟨hy1, hy2, hm, hd1, hd2⟩ := h
  have hdim : (daysInMonth t.year t.month : Int) ≤ 31 := by
    unfold daysInMonth
    split <;> first | omega | (split <;> omega)
  unfold formatDate
  rw [jsIntToString_nonneg (by simp [JsDate.getFullYear]; omega)]
  simp only [String.data_append]
  rw [show (JsDate.getFullYear t) = t.year from rfl, show (JsDate.getMonth t) = t.month from rfl,
    show (JsDate.getDate t) = t.day from rfl]
  rw [natDigits_four (by omega) (by omega)]
  rw [show ((t.month : Int) + 1) = ((t.month + 1 : Nat) : Int) from by omega]
  rw [pad2_digits (by omega) (by omega)]
  rw [show t.day = ((t.day.toNat : Nat) : Int) from by omega]
  rw [pad2_digits (by omega) (by omega)]
  rfl

theorem ne_dash_of_isDigit {c : Char} (h : isDigit c = true) : c ≠ '-' := by
  rintro rfl
  exact absurd h (by decide)

theorem ne_plus_of_isDigit {c : Char} (h : isDigit c = true) : c ≠ '+' := by
  rintro rfl
  exact absurd h (by decide)

theorem splitOnCharAux_no_sep {sep : Char} : ∀ {a : List Char}, sep ∉ a →
    splitOnCharAux sep a = (a, []) := by
  intro a
  induction a with
  | nil => intro h; rfl
  | cons c cs ih =>
    intro h
    show (let p := splitOnCharAux sep cs
      if c == sep then ([], p.1 :: p.2) else (c :: p.1, p.2)) = _
    rw [ih (fun hm => h (List.mem_cons_of_mem c hm))]
    have hc : (c == sep) = false := by
      simp only [beq_eq_false_iff_ne, ne_eq]
      intro he
      exact h (he ▸ List.mem_cons_self c cs)
    rw [hc]
    rfl

theorem splitOnCharAux_sep {sep : Char} : ∀ {a b : List Char}, sep ∉ a →
    splitOnCharAux sep (a ++ sep :: b) =
      (a, (splitOnCharAux sep b).1 :: (splitOnCharAux sep b).2) := by
  intro a
  induction a with
  | nil =>
    intro b h
    show (let p := splitOnCharAux sep b
      if sep == sep then ([], p.1 :: p.2) else (sep :: p.1, p.2)) = _
    rw [beq_self_eq_true]
    rfl
  | cons c cs ih =>
    intro b h
    show (let p := splitOnCharAux sep (cs ++ sep :: b)
      if c == sep then ([], p.1 :: p.2) else (c :: p.1, p.2)) = _
    rw [ih (fun hm => h (List.mem_cons_of_mem c hm))]
    have hc : (c == sep) = false := by
      simp only [beq_eq_false_iff_ne, ne_eq]
      intro he
      exact h (he ▸ List.mem_cons_self c cs)
    rw [hc]
    rfl

theorem splitOnChar_token {y4 m2 d2 : List Char} (hy : '-' ∉ y4) (hm : '-' ∉ m2)
    (hd : '-' ∉ d2) :
    splitOnChar '-' (y4 ++ '-' :: (m2 ++ '-' :: d2)) = [y4, m2, d2] := by
  unfold splitOnChar
  rw [splitOnCharAux_sep hy, splitOnCharAux_sep hm, splitOnCharAux_no_sep hd]

theorem dropWhile_eq_self_of {p : Char → Bool} {l : List Char}
    (h : ∀ c ∈ l, p c = false) : l.dropWhile p = l := by
  cases l with
  | nil => rfl
  | cons c cs =>
    rw [List.dropWhile_cons, if_neg (by rw [h c (List.mem_cons_self c cs)]; simp)]

theorem jsTrim_no_ws {l : List Char} (h : ∀ c ∈ l, isWs c = false) :
    (jsTrim ⟨l⟩).data = l := by
  unfold jsTrim
  rw [show (⟨l⟩ : String).data = l from rfl]
  rw [dropWhile_eq_self_of h,
    dropWhile_eq_self_of (fun c hc => h c (List.mem_reverse.mp hc)), List.reverse_reverse]

theorem isWs_dc_false (x : Nat) : isWs (decimalDigit x) = false := by
  have h := dc_isDigit x
  exact isWs_false_of_isDigit h

theorem jsNumber_digits {l : List Char} (hne : l ≠ []) (hd : ∀ c ∈ l, isDigit c = true) :
    jsNumber ⟨l⟩ = some ((digitsToNat l : Int)) := by
  have htrim : (jsTrim ⟨l⟩).data = l :=
    jsTrim_no_ws (fun c hc => isWs_false_of_isDigit (hd c hc))
  unfold jsNumber
  rw [htrim]
  cases l with
  | nil => exact absurd rfl hne
  | cons c cs =>
    have hcd := hd c (List.mem_cons_self c cs)
    have h1 : (c == '-') = false := by
      simp only [beq_eq_false_iff_ne, ne_eq]
      exact ne_dash_of_isDigit hcd
    have h2 : (c == '+') = false := by
      simp only [beq_eq_false_iff_ne, ne_eq]
      exact ne_plus_of_isDigit hcd
    have h3 : (c :: cs).all isDigit = true := by
      rw [List.all_eq_true]
      exact hd
    simp only [h1, h2, h3]
    simp

theorem digitsToNat_two (a b : Nat) (ha : a < 10) (hb : b < 10) :
    digitsToNat [decimalDigit a, decimalDigit b] = 10 * a + b := by
  show 10 * (10 * 0 + ((decimalDigit a).toNat - 48)) + ((decimalDigit b).toNat - 48) = _
  rw [dc_toNat_min, dc_toNat_min]
  omega

theorem digitsToNat_four (a b c d : Nat) (ha : a < 10) (hb : b < 10) (hc : c < 10)
    (hd : d < 10) :
    digitsToNat [decimalDigit a, decimalDigit b, decimalDigit c, decimalDigit d] =
      1000 * a + 100 * b + 10 * c + d := by
  show 10 * (10 * (10 * (10 * 0 + ((decimalDigit a).toNat - 48)) +
      ((decimalDigit b).toNat - 48)) + ((decimalDigit c).toNat - 48)) +
      ((decimalDigit d).toNat - 48) = _
  rw [dc_toNat_min, dc_toNat_min, dc_toNat_min, dc_toNat_min]
  omega

theorem daysInMonth_bounds (y : Int) (m : Nat) :
    28 ≤ daysInMonth y m ∧ daysInMonth y m ≤ 31 := by
  unfold daysInMonth
  split
  · omega
  · split <;> omega
  all_goals omega

theorem normDays_fix {fuel : Nat} {y : Int} {m : Nat} {d : Int}
    (h1 : 1 ≤ d) (h2 : d ≤ (daysInMonth y m : Int)) :
    normDays (fuel + 1) y m d = (y, m, d) := by
  show (if d < 1 then _ else if (daysInMonth y m : Int) < d then _ else (y, m, d)) = _
  rw [if_neg (by omega), if_neg (by omega)]

theorem mkDate_of_valid {y : Int} {m0 : Nat} {d : Int} (hy1 : 1000 ≤ y) (hy2 : y ≤ 9999)
    (hm : m0 < 12) (hd1 : 1 ≤ d) (hd2 : d ≤ (daysInMonth y m0 : Int)) :
    mkDate y (m0 : Int) d = ⟨y, m0, d⟩ := by
  unfold mkDate
  rw [if_neg (by omega)]
  dsimp only
  have e1 : (y * 12 + (m0 : Int)) / 12 = y := by omega
  have e2 : ((y * 12 + (m0 : Int)) % 12).toNat = m0 := by omega
  rw [e1, e2, show d.natAbs + 24 = (d.natAbs + 23) + 1 from rfl, normDays_fix hd1 hd2]

/-- Round-trip: parsing a formatted valid date returns the date. -/
theorem parseDate_formatDate (t : JsDate) (h : ValidDate t) :
    parseDate (formatDate t) = some t := by
  obtain ⟨hy1, hy2, hm, hd1, hd2⟩ := h
  obtain ⟨hdimlo, hdimhi⟩ := daysInMonth_bounds t.year t.month
  unfold parseDate
  rw [formatDate_data t ⟨hy1, hy2, hm, hd1, hd2⟩]
  rw [show ([decimalDigit (t.year.toNat / 1000), decimalDigit (t.year.toNat / 100 % 10),
       decimalDigit (t.year.toNat / 10 % 10), decimalDigit (t.year.toNat % 10), '-',
       decimalDigit ((t.month + 1) / 10), decimalDigit ((t.month + 1) % 10), '-',
       decimalDigit (t.day.toNat / 10), decimalDigit (t.day.toNat % 10)] : List Char)
      = [decimalDigit (t.year.toNat / 1000), decimalDigit (t.year.toNat / 100 % 10),
         decimalDigit (t.year.toNat / 10 % 10), decimalDigit (t.year.toNat % 10)] ++
        '-' :: ([decimalDigit ((t.month + 1) / 10), decimalDigit ((t.month + 1) % 10)] ++
        '-' :: [decimalDigit (t.day.toNat / 10), decimalDigit (t.day.toNat % 10)]) from rfl]
  rw [splitOnChar_token
    (by
      intro hmem
      simp only [List.mem_cons, List.not_mem_nil, or_false] at hmem
      rcases hmem with h | h | h | h <;> exact ne_dash_of_isDigit (dc_isDigit _) h.symm)
    (by
      intro hmem
      simp only [List.mem_cons, List.not_mem_nil, or_false] at hmem
      rcases hmem with h | h <;> exact ne_dash_of_isDigit (dc_isDigit _) h.symm)
    (by
      intro hmem
      simp only [List.mem_cons, List.not_mem_nil, or_false] at hmem
      rcases hmem with h | h <;> exact ne_dash_of_isDigit (dc_isDigit _) h.symm)]
  dsimp only
  have hy4 := jsNumber_digits (l := [decimalDigit (t.year.toNat / 1000),
      decimalDigit (t.year.toNat / 100 % 10), decimalDigit (t.year.toNat / 10 % 10),
      decimalDigit (t.year.toNat % 10)]) (by simp)
    (by
      intro c hc
      simp only [List.mem_cons, List.not_mem_nil, or_false] at hc
      rcases hc with rfl | rfl | rfl | rfl <;> exact dc_isDigit _)
  have hm2 := jsNumber_digits (l := [decimalDigit ((t.month + 1) / 10),
      decimalDigit ((t.month + 1) % 10)]) (by simp)
    (by
      intro c hc
      simp only [List.mem_cons, List.not_mem_nil, or_false] at hc
      rcases hc with rfl | rfl <;> exact dc_isDigit _)
  have hd2l := jsNumber_digits (l := [decimalDigit (t.day.toNat / 10),
      decimalDigit (t.day.toNat % 10)]) (by simp)
    (by
      intro c hc
      simp only [List.mem_cons, List.not_mem_nil, or_false] at hc
      rcases hc with rfl | rfl <;> exact dc_isDigit _)
  have e0 : jsNumberAt [[decimalDigit (t.year.toNat / 1000),
      decimalDigit (t.year.toNat / 100 % 10), decimalDigit (t.year.toNat / 10 % 10),
      decimalDigit (t.year.toNat % 10)],
      [decimalDigit ((t.month + 1) / 10), decimalDigit ((t.month + 1) % 10)],
      [decimalDigit (t.day.toNat / 10), decimalDigit (t.day.toNat % 10)]] 0 =
      jsNumber ⟨[decimalDigit (t.year.toNat / 1000), decimalDigit (t.year.toNat / 100 % 10),
        decimalDigit (t.year.toNat / 10 % 10), decimalDigit (t.year.toNat % 10)]⟩ := rfl
  have e1 : jsNumberAt [[decimalDigit (t.year.toNat / 1000),
      decimalDigit (t.year.toNat / 100 % 10), decimalDigit (t.year.toNat / 10 % 10),
      decimalDigit (t.year.toNat % 10)],
      [decimalDigit ((t.month + 1) / 10), decimalDigit ((t.month + 1) % 10)],
      [decimalDigit (t.day.toNat / 10), decimalDigit (t.day.toNat % 10)]] 1 =
      jsNumber ⟨[decimalDigit ((t.month + 1) / 10), decimalDigit ((t.month + 1) % 10)]⟩ := rfl
  have e2 : jsNumberAt [[decimalDigit (t.year.toNat / 1000),
      decimalDigit (t.year.toNat / 100 % 10), decimalDigit (t.year.toNat / 10 % 10),
      decimalDigit (t.year.toNat % 10)],
      [decimalDigit ((t.month + 1) / 10), decimalDigit ((t.month + 1) % 10)],
      [decimalDigit (t.day.toNat / 10), decimalDigit (t.day.toNat % 10)]] 2 =
      jsNumber ⟨[decimalDigit (t.day.toNat / 10), decimalDigit (t.day.toNat % 10)]⟩ := rfl
  rw [e0, e1, e2, hy4, hm2, hd2l]
  rw [digitsToNat_four _ _ _ _ (by omega) (by omega) (by omega) (by omega)]
  rw [digitsToNat_two _ _ (by omega) (by omega)]
  rw [digitsToNat_two _ _ (by omega) (by omega)]
  dsimp only
  rw [show ((1000 * (t.year.toNat / 1000) + 100 * (t.year.toNat / 100 % 10) +
      10 * (t.year.toNat / 10 % 10) + t.year.toNat % 10 : Nat) : Int) = t.year from by omega]
  rw [show ((10 * ((t.month + 1) / 10) + (t.month + 1) % 10 : Nat) : Int) - 1 = (t.month : Int)
    from by omega]
  rw [show ((10 * (t.day.toNat / 10) + t.day.toNat % 10 : Nat) : Int) = t.day from by omega]
  rw [mkDate_of_valid hy1 hy2 hm hd1 hd2]

theorem isLeap_iff {y : Int} : isLeap y = true ↔ (y % 4 = 0 ∧ (y % 100 ≠ 0 ∨ y % 400 = 0)) := by
  simp [isLeap, Bool.and_eq_true, Bool.or_eq_true, beq_iff_eq, bne_iff_ne]

theorem daysBeforeYear_mono {a b : Int} (h : a ≤ b) :
    daysBeforeYear a ≤ daysBeforeYear b := by
  unfold daysBeforeYear
  omega

theorem daysBeforeYear_succ (y : Int) :
    daysBeforeYear (y + 1) = daysBeforeYear y + 365 + (if isLeap y then 1 else 0) := by
  by_cases hL : isLeap y = true
  · rw [if_pos hL]
    rw [isLeap_iff] at hL
    unfold daysBeforeYear
    omega
  · rw [if_neg hL]
    rw [show (¬ isLeap y = true) ↔ ¬ (y % 4 = 0 ∧ (y % 100 ≠ 0 ∨ y % 400 = 0)) from
      not_congr isLeap_iff] at hL
    unfold daysBeforeYear
    omega

theorem dBM_succ (y : Int) (m : Nat) (h : m < 11) :
    daysBeforeMonth y (m + 1) = daysBeforeMonth y m + daysInMonth y m := by
  rcases m with _|_|_|_|_|_|_|_|_|_|_|m
  case zero => by_cases hL : isLeap y = true <;> simp [daysBeforeMonth, daysInMonth, hL]
  case succ.zero => by_cases hL : isLeap y = true <;> simp [daysBeforeMonth, daysInMonth, hL]
  case succ.succ.zero =>
    by_cases hL : isLeap y = true <;> simp [daysBeforeMonth, daysInMonth, hL]
  case succ.succ.succ.zero =>
    by_cases hL : isLeap y = true <;> simp [daysBeforeMonth, daysInMonth, hL]
  case succ.succ.succ.succ.zero =>
    by_cases hL : isLeap y = true <;> simp [daysBeforeMonth, daysInMonth, hL]
  case succ.succ.succ.succ.succ.zero =>
    by_cases hL : isLeap y = true <;> simp [daysBeforeMonth, daysInMonth, hL]
  case succ.succ.succ.succ.succ.succ.zero =>
    by_cases hL : isLeap y = true <;> simp [daysBeforeMonth, daysInMonth, hL]
  case succ.succ.succ.succ.succ.succ.succ.zero =>
    by_cases hL : isLeap y = true <;> simp [daysBeforeMonth, daysInMonth, hL]
  case succ.succ.succ.succ.succ.succ.succ.succ.zero =>
    by_cases hL : isLeap y = true <;> simp [daysBeforeMonth, daysInMonth, hL]
  case succ.succ.succ.succ.succ.succ.succ.succ.succ.zero =>
    by_cases hL : isLeap y = true <;> simp [daysBeforeMonth, daysInMonth, hL]
  case succ.succ.succ.succ.succ.succ.succ.succ.succ.succ.zero =>
    by_cases hL : isLeap y = true <;> simp [daysBeforeMonth, daysInMonth, hL]
  case succ.succ.succ.succ.succ.succ.succ.succ.succ.succ.succ => omega

theorem dBM_le {y : Int} : ∀ {m2 m1 : Nat}, m1 < m2 → m2 < 12 →
    daysBeforeMonth y m1 + daysInMonth y m1 ≤ daysBeforeMonth y m2 := by
  intro m2
  induction m2 with
  | zero => intro m1 h1 h2; omega
  | succ m ih =>
    intro m1 h1 h2
    rcases Nat.lt_or_ge m1 m with hlt | hge
    · have hstep := dBM_succ y m (by omega)
      have := ih hlt (by omega)
      omega
    · have hm1 : m1 = m := by omega
      subst hm1
      rw [dBM_succ y m1 (by omega)]

theorem dBM_11 (y : Int) :
    daysBeforeMonth y 11 + daysInMonth y 11 = 365 + (if isLeap y then 1 else 0) := by
  by_cases hL : isLeap y = true <;> simp [daysBeforeMonth, daysInMonth, hL]

theorem dBM_add_dim_le (y : Int) (m : Nat) (h : m < 12) :
    daysBeforeMonth y m + daysInMonth y m ≤ 365 + (if isLeap y then 1 else 0) := by
  rcases Nat.lt_or_ge m 11 with hlt | hge
  · have h1 := dBM_le (y := y) hlt (by omega)
    have h2 := dBM_11 y
    have h3 := (daysInMonth_bounds y 11).1
    have h4 := (daysInMonth_bounds y m).2
    omega
  · have hm : m = 11 := by omega
    subst hm
    exact le_of_eq (dBM_11 y)

theorem dayNumber_lt_of_lt {t1 t2 : JsDate} (h1 : ValidDate t1) (h2 : ValidDate t2)
    (h : t1.year < t2.year ∨ (t1.year = t2.year ∧ (t1.month < t2.month ∨
      (t1.month = t2.month ∧ t1.day < t2.day)))) :
    dayNumber t1 < dayNumber t2 := by
  obtain ⟨hy1a, hy1b, hm1, hd1a, hd1b⟩ := h1
  obtain ⟨hy2a, hy2b, hm2, hd2a, hd2b⟩ := h2
  unfold dayNumber
  rcases h with hy | ⟨hyeq, hm | ⟨hmeq, hd⟩⟩
  · have hite : (((if isLeap t1.year then 1 else 0 : Nat)) : Int) =
        (if isLeap t1.year then (1 : Int) else 0) := by
      by_cases hL : isLeap t1.year = true <;> simp [hL]
    have hb1 : (daysBeforeMonth t1.year t1.month : Int) + t1.day ≤
        365 + (((if isLeap t1.year then 1 else 0 : Nat)) : Int) := by
      have := dBM_add_dim_le t1.year t1.month hm1
      omega
    have hsucc := daysBeforeYear_succ t1.year
    have hmono := daysBeforeYear_mono (show t1.year + 1 ≤ t2.year by omega)
    have hpos : (0 : Int) ≤ (daysBeforeMonth t2.year t2.month : Int) := by positivity
    omega
  · rw [hyeq]
    have := dBM_le (y := t2.year) hm hm2
    rw [hyeq] at hd1b
    omega
  · rw [hyeq, hmeq]
    omega

theorem dayNumber_lt_iff {t1 t2 : JsDate} (h1 : ValidDate t1) (h2 : ValidDate t2) :
    dayNumber t1 < dayNumber t2 ↔
      (t1.year < t2.year ∨ (t1.year = t2.year ∧ (t1.month < t2.month ∨
        (t1.month = t2.month ∧ t1.day < t2.day)))) := by
  constructor
  · intro hlt
    by_contra hn
    have htri : (t2.year < t1.year ∨ (t2.year = t1.year ∧ (t2.month < t1.month ∨
        (t2.month = t1.month ∧ t2.day < t1.day)))) ∨
        (t1.year = t2.year ∧ t1.month = t2.month ∧ t1.day = t2.day) := by
      omega
    rcases htri with h | ⟨e1, e2, e3⟩
    · have := dayNumber_lt_of_lt h2 h1 h
      omega
    · have : dayNumber t1 = dayNumber t2 := by
        unfold dayNumber
        rw [e1, e2, e3]
      omega
  · exact dayNumber_lt_of_lt h1 h2

theorem formatDate_lt_iff {t1 t2 : JsDate} (h1 : ValidDate t1) (h2 : ValidDate t2) :
    formatDate t1 < formatDate t2 ↔
      (t1.year < t2.year ∨ (t1.year = t2.year ∧ (t1.month < t2.month ∨
        (t1.month = t2.month ∧ t1.day < t2.day)))) := by
  obtain ⟨hy1a, hy1b, hm1, hd1a, hd1b⟩ := h1
  obtain ⟨hy2a, hy2b, hm2, hd2a, hd2b⟩ := h2
  have hdim1 := (daysInMonth_bounds t1.year t1.month).2
  have hdim2 := (daysInMonth_bounds t2.year t2.month).2
  rw [string_lt_iff, formatDate_data t1 ⟨hy1a, hy1b, hm1, hd1a, hd1b⟩,
    formatDate_data t2 ⟨hy2a, hy2b, hm2, hd2a, hd2b⟩]
  have hnil : ¬ (([] : List Char) < []) := List.Lex.not_nil_right _ _
  simp only [cons_lt_cons_iff, dc_lt_iff, dc_eq_iff, lt_self_iff_false, hnil]
  simp only [false_or, or_false, true_and, and_true, false_and, and_false]
  omega

/-- **C7 counterexample**: `"0099-01-01"` is a well-formed canonical token,
but the parse–format round trip yields `"1999-01-01"` (the JS `Date`
constructor maps years 0–99 into 1900–1999), so
`formatDate (parseDate a) = a` fails on it. -/
theorem dateCodec_roundtrip_cex :
    isDateTokenChars "0099-01-01".data = true ∧
    (parseDate "0099-01-01").map formatDate = some "1999-01-01" ∧
    ("1999-01-01" : String) ≠ "0099-01-01" := by
  refine ⟨by decide, by decide, by decide⟩

/-- **C7 (amended)**: for valid dates with four-digit years 1000–9999 (whose
canonical tokens are exactly `formatDate` of such dates), parse inverts
format — hence `formatDate (parseDate a) = a` on those tokens — and
lexicographic comparison of the tokens agrees with chronological comparison
of the dates. -/
theorem dateCodec_spec (t1 t2 : JsDate) (h1 : ValidDate t1) (h2 : ValidDate t2) :
    parseDate (formatDate t1) = some t1 ∧
    (parseDate (formatDate t1)).map formatDate = some (formatDate t1) ∧
    (formatDate t1 ≤ formatDate t2 ↔ jsDateLe t1 t2) := by
  refine ⟨parseDate_formatDate t1 h1, ?_, ?_⟩
  · rw [parseDate_formatDate t1 h1]
    rfl
  · unfold jsDateLe
    rw [← not_lt, ← not_lt (a := dayNumber t2)]
    exact not_congr ((formatDate_lt_iff h2 h1).trans (dayNumber_lt_iff h2 h1).symm)

/-- **C7 witness**: the codec theorem applied to 2025-01-15 and 2025-02-03. -/
theorem dateCodec_spec_witness :
    parseDate (formatDate ⟨2025, 0, 15⟩) = some ⟨2025, 0, 15⟩ ∧
    (formatDate ⟨2025, 0, 15⟩ ≤ formatDate ⟨2025, 1, 3⟩ ↔
      jsDateLe ⟨2025, 0, 15⟩ ⟨2025, 1, 3⟩) :=
  have vd1 : ValidDate ⟨2025, 0, 15⟩ := ⟨by decide, by decide, by decide, by decide, by decide⟩
  have vd2 : ValidDate ⟨2025, 1, 3⟩ := ⟨by decide, by decide, by decide, by decide, by decide⟩
  ⟨(dateCodec_spec ⟨2025, 0, 15⟩ ⟨2025, 1, 3⟩ vd1 vd2).1,
   (dateCodec_spec ⟨2025, 0, 15⟩ ⟨2025, 1, 3⟩ vd1 vd2).2.2⟩
